import Mathlib

/-!
# FormFlex editor-core: shallow embedding and verification

This file embeds the editor state core of the FormFlex form builder
(`app/store/formBuilderStore.ts`) and the field validation predicate
(`app/components/FormPreview.tsx`, `validateField`) as pure Lean
definitions, and proves or refutes the specification claims about them.

Modelling conventions:
* uuid-generated identifiers are opaque unique strings in the source; they
  are modelled as natural numbers drawn from a monotone fresh-id supply
  (`nextId`) threaded through the state, which is the observable content
  of global uniqueness.
* `structuredClone` deep copies are the identity on pure values; snapshot
  isolation therefore appears as value preservation of stored entries.
* JavaScript truthiness tests on optional numeric/string record entries
  (`field.validation.minLength && ...`) are modelled by an `Option` match
  combined with a non-zero / non-empty test.
* the store's `fields` array holds duck-typed records: `reorderFields`
  with an out-of-range `startIndex` splices in `undefined` and spreads it,
  producing a junk `{ order }` record with an undefined id.  Stored
  records are therefore a sum `StoredField` of genuine fields and junk
  records, and a stored record's id is `Option Nat` (`none` = undefined).
* The JS `RegExp` engine is external to the repository; it is modelled as
  an abstract compilation oracle `String → Option (String → Bool)` where
  `none` models a constructor throw on a malformed pattern.
-/

/-- The six field kinds of the discriminated union `FieldType`. -/
inductive FieldType where
  | text
  | textarea
  | dropdown
  | checkbox
  | date
  | fileUpload
deriving DecidableEq

/-- The optional validation record carried by every field. -/
structure Validation where
  minLength : Option Nat := none
  maxLength : Option Nat := none
  pattern : Option String := none
deriving DecidableEq

/-- One `{label, value}` pair of a dropdown field. -/
structure DropdownOption where
  label : String
  value : String
deriving DecidableEq

/-- Light/dark theme preference. -/
inductive Theme where
  | light
  | dark
deriving DecidableEq

/-- A form field.  The source's discriminated union
(`TextField | ... | FileUploadField`) is flattened into one record: the
variant-only attributes (`options` for dropdown, `accept`/`multiple` for
fileUpload) are present with neutral defaults on the other variants, which
matches the duck-typed JS object shape. -/
structure AnyFormField where
  id : Nat
  type : FieldType
  label : String
  placeholder : Option String := none
  required : Bool
  helpText : Option String := none
  order : Nat
  validation : Validation
  options : List DropdownOption := []
  accept : Option String := none
  multiple : Option Bool := none
deriving DecidableEq

/-- A record of the store's `fields` array: either a genuine field or the
junk `{ order }` record that `reorderFields` produces by spreading the
`undefined` element spliced in when `startIndex` is out of range. -/
inductive StoredField where
  | field (f : AnyFormField)
  | junk (order : Nat)
deriving DecidableEq

/-- `record.id`: the junk record's id is `undefined` (`none`). -/
def StoredField.id : StoredField → Option Nat
  | .field f => some f.id
  | .junk _ => none

/-- `record.order`: both genuine fields and junk records carry `order`
(the junk record's `order` is set by the renumbering map that creates it). -/
def StoredField.order : StoredField → Nat
  | .field f => f.order
  | .junk o => o

/-- `{ ...record, order: index }` on a stored record. -/
def setOrder : StoredField → Nat → StoredField
  | .field f, o => .field { f with order := o }
  | .junk _, o => .junk o

/-- A form step: an ordered group of field ids. -/
structure FormStep where
  id : Nat
  name : String
  fieldIds : List Nat
deriving DecidableEq

/-- A history snapshot: the mutable document content without selection
(`HistoryState` in the source). -/
structure HistoryState where
  fields : List StoredField
  steps : List FormStep
  activeStepId : Option Nat
  formName : String
  theme : Theme
deriving DecidableEq

/-- The whole store state (`FormBuilderState`), extended with the fresh-id
supply `nextId` that models the uuid generator. -/
structure State where
  fields : List StoredField
  steps : List FormStep
  activeStepId : Option Nat
  selectedFieldId : Option Nat
  formName : String
  theme : Theme
  past : List HistoryState
  future : List HistoryState
  nextId : Nat
deriving DecidableEq

/-- `initialFormBuilderState` from the source. -/
def initialFormBuilderState : State :=
  { fields := []
    steps := []
    activeStepId := none
    selectedFieldId := none
    formName := "My New Form"
    theme := .light
    past := []
    future := []
    nextId := 0 }

/-- Project the live document to a history snapshot (the record built by
`_addToHistory`, `undo` and `redo`; `structuredClone` is the identity on
pure values). -/
def docOf (s : State) : HistoryState :=
  { fields := s.fields
    steps := s.steps
    activeStepId := s.activeStepId
    formName := s.formName
    theme := s.theme }

/-- `_addToHistory`: push a snapshot of the live document, keeping only the
last 10 entries (`past.slice(-9)` then one push), and clear `future`. -/
def addToHistory (s : State) : State :=
  { s with
    past := s.past.drop (s.past.length - 9) ++ [docOf s]
    future := [] }

/-- A partial field update (`Partial<AnyFormField>`): every key optional;
a present key overrides the field's value by object-spread. -/
structure FieldUpdate where
  id : Option Nat := none
  type : Option FieldType := none
  label : Option String := none
  placeholder : Option (Option String) := none
  required : Option Bool := none
  helpText : Option (Option String) := none
  order : Option Nat := none
  validation : Option Validation := none
  options : Option (List DropdownOption) := none
  accept : Option (Option String) := none
  multiple : Option (Option Bool) := none
deriving DecidableEq

/-- Object spread `{ ...field, ...updates }`. -/
def mergeField (f : AnyFormField) (u : FieldUpdate) : AnyFormField :=
  { id := u.id.getD f.id
    type := u.type.getD f.type
    label := u.label.getD f.label
    placeholder := u.placeholder.getD f.placeholder
    required := u.required.getD f.required
    helpText := u.helpText.getD f.helpText
    order := u.order.getD f.order
    validation := u.validation.getD f.validation
    options := u.options.getD f.options
    accept := u.accept.getD f.accept
    multiple := u.multiple.getD f.multiple }

/-- Capitalised kind name: `type.charAt(0).toUpperCase() + type.slice(1)`. -/
def typeLabel : FieldType → String
  | .text => "Text"
  | .textarea => "Textarea"
  | .dropdown => "Dropdown"
  | .checkbox => "Checkbox"
  | .date => "Date"
  | .fileUpload => "FileUpload"

/-- The field built by `addField` before insertion: base attributes plus
the variant-specific defaults of the `switch`. -/
def mkNewField (type : FieldType) (id : Nat) (order : Nat) : AnyFormField :=
  let base : AnyFormField :=
    { id := id
      type := type
      label := "New " ++ typeLabel type ++ " Field"
      required := false
      order := order
      validation := {} }
  match type with
  | .dropdown => { base with options := [{ label := "Option 1", value := "option1" }] }
  | .fileUpload => { base with accept := some "", multiple := some false }
  | _ => base

/-- Update the first element satisfying `p` (the effect of `Array.find`
followed by in-place mutation of the found object). -/
def modifyFirst (p : FormStep → Bool) (g : FormStep → FormStep) : List FormStep → List FormStep
  | [] => []
  | st :: rest => if p st then g st :: rest else st :: modifyFirst p g rest

/-- `addField(type)`: snapshot, build the field with `order = fields.length`
and a fresh id, append it, and assign its id to the active step (fallback:
first step); with no steps, create step `"Step 1"` holding it and make that
step active. -/
def addField (type : FieldType) (s : State) : State :=
  let s1 := addToHistory s
  let newField := mkNewField type s1.nextId s1.fields.length
  let s2 := { s1 with nextId := s1.nextId + 1 }
  match s2.steps with
  | [] =>
    let newStep : FormStep := { id := s2.nextId, name := "Step 1", fieldIds := [newField.id] }
    { s2 with
      fields := s2.fields ++ [.field newField]
      steps := [newStep]
      activeStepId := some newStep.id
      nextId := s2.nextId + 1 }
  | st0 :: rest =>
    let steps :=
      if (st0 :: rest).any (fun st => some st.id = s2.activeStepId) then
        modifyFirst (fun st => some st.id = s2.activeStepId)
          (fun st => { st with fieldIds := st.fieldIds ++ [newField.id] }) (st0 :: rest)
      else
        { st0 with fieldIds := st0.fieldIds ++ [newField.id] } :: rest
    { s2 with fields := s2.fields ++ [.field newField], steps := steps }

/-- `updateField(id, updates)`: snapshot, then merge the partial update
into every field whose id matches (`field.id === id`; a junk record's
undefined id never equals a generated id). -/
def updateField (id : Nat) (updates : FieldUpdate) (s : State) : State :=
  let s1 := addToHistory s
  { s1 with
    fields := s1.fields.map (fun f =>
      match f with
      | .field g => if g.id = id then .field (mergeField g updates) else .field g
      | .junk o => .junk o) }

/-- `removeField(id)`: snapshot; drop the field, strip its id from every
step, drop steps left empty, recompute the active step, deselect if the
removed field was selected. -/
def removeField (id : Nat) (s : State) : State :=
  let s1 := addToHistory s
  let updatedFields := s1.fields.filter (fun f => f.id ≠ some id)
  let updatedSteps :=
    (s1.steps.map (fun st => { st with fieldIds := st.fieldIds.filter (fun fid => fid ≠ id) })).filter
      (fun st => st.fieldIds.length > 0)
  let newActiveStepId : Option Nat :=
    match updatedSteps with
    | [] => none
    | st0 :: rest =>
      if s1.activeStepId = none ∨ ¬ (st0 :: rest).any (fun st => some st.id = s1.activeStepId) then
        some st0.id
      else
        s1.activeStepId
  { s1 with
    fields := updatedFields
    steps := updatedSteps
    selectedFieldId := if s1.selectedFieldId = some id then none else s1.selectedFieldId
    activeStepId := newActiveStepId }

/-- `reorderFields(startIndex, endIndex)`: snapshot; sort fields by `order`
(stable, ascending); `splice(startIndex, 1)` removes the element at
`startIndex` when in range (out of range it removes nothing and the
destructured `removed` is `undefined`, modelled as `none`);
`splice(endIndex, 0, removed)` inserts `removed` at the position clamped
to the length; the final map renumbers `order` to the new position, and
spreading the `undefined` element yields the junk `{ order }` record. -/
def reorderFields (startIndex endIndex : Nat) (s : State) : State :=
  let s1 := addToHistory s
  let sortedFields := s1.fields.mergeSort (fun a b => a.order ≤ b.order)
  let removed : Option StoredField :=
    if h : startIndex < sortedFields.length then some (sortedFields.get ⟨startIndex, h⟩)
    else none
  let without : List StoredField :=
    if startIndex < sortedFields.length then sortedFields.eraseIdx startIndex
    else sortedFields
  let k := min endIndex without.length
  let spliced := (without.take k).map some ++ [removed] ++ (without.drop k).map some
  { s1 with
    fields := (spliced.enum).map (fun p =>
      match p.2 with
      | some f => setOrder f p.1
      | none => .junk p.1) }

/-- `setSelectedField(id)`: pure view-state change, no snapshot. -/
def setSelectedField (id : Option Nat) (s : State) : State :=
  { s with selectedFieldId := id }

/-- `setFormName(name)`: snapshot, then set the name. -/
def setFormName (name : String) (s : State) : State :=
  let s1 := addToHistory s
  { s1 with formName := name }

/-- `toggleTheme()`: flip the theme, no snapshot. -/
def toggleTheme (s : State) : State :=
  { s with theme := if s.theme = .light then .dark else .light }

/-- `addStep()`: snapshot; append an empty step named `"Step " + (count+1)`
with a fresh id and make it active. -/
def addStep (s : State) : State :=
  let s1 := addToHistory s
  let newStep : FormStep :=
    { id := s1.nextId, name := "Step " ++ toString (s1.steps.length + 1), fieldIds := [] }
  { s1 with
    steps := s1.steps ++ [newStep]
    activeStepId := some newStep.id
    nextId := s1.nextId + 1 }

/-- `updateStepName(stepId, newName)`: snapshot, rename every matching step. -/
def updateStepName (stepId : Nat) (newName : String) (s : State) : State :=
  let s1 := addToHistory s
  { s1 with
    steps := s1.steps.map (fun st => if st.id = stepId then { st with name := newName } else st) }

/-- `removeStep(stepId)`: snapshot; if the step is missing return the state
unchanged (after the snapshot). Otherwise drop it, reassign its field ids
to the new first step, make that step active (null if none remain), and
deselect when the selected field was among the removed step's ids. -/
def removeStep (stepId : Nat) (s : State) : State :=
  let s1 := addToHistory s
  match s1.steps.find? (fun st => st.id = stepId) with
  | none => s1
  | some removedStep =>
    let updatedSteps := s1.steps.filter (fun st => st.id ≠ stepId)
    let fieldsToReassign := removedStep.fieldIds
    let selectedFieldId :=
      if (match s1.selectedFieldId with
          | some f => fieldsToReassign.contains f
          | none => false) then
        none
      else
        s1.selectedFieldId
    match updatedSteps with
    | [] =>
      { s1 with steps := [], activeStepId := none, selectedFieldId := selectedFieldId }
    | st0 :: rest =>
      let steps2 :=
        if fieldsToReassign.length > 0 then
          modifyFirst (fun st => st.id = st0.id)
            (fun st => { st with fieldIds := st.fieldIds ++ fieldsToReassign }) (st0 :: rest)
        else
          st0 :: rest
      { s1 with
        steps := steps2
        activeStepId := some st0.id
        selectedFieldId := selectedFieldId }

/-- `moveFieldToStep(fieldId, targetStepId)`: snapshot; strip `fieldId`
from every step's list and push it onto the target step's list unless the
stripped list still contains it. -/
def moveFieldToStep (fieldId targetStepId : Nat) (s : State) : State :=
  let s1 := addToHistory s
  { s1 with
    steps := s1.steps.map (fun st =>
      let newFieldIds := st.fieldIds.filter (fun fid => fid ≠ fieldId)
      if st.id = targetStepId then
        { st with
          fieldIds := if newFieldIds.contains fieldId then newFieldIds
                      else newFieldIds ++ [fieldId] }
      else
        { st with fieldIds := newFieldIds }) }

/-- `setActiveStep(stepId)`: pure view-state change, no snapshot. -/
def setActiveStep (stepId : Nat) (s : State) : State :=
  { s with activeStepId := some stepId }

/-- `undo()`: no-op on empty `past`; otherwise pop its last entry, push the
current document onto the front of `future`, restore the popped entry and
clear the selection. -/
def undo (s : State) : State :=
  match s.past.getLast? with
  | none => s
  | some previousState =>
    { fields := previousState.fields
      steps := previousState.steps
      activeStepId := previousState.activeStepId
      selectedFieldId := none
      formName := previousState.formName
      theme := previousState.theme
      past := s.past.dropLast
      future := docOf s :: s.future
      nextId := s.nextId }

/-- `redo()`: no-op on empty `future`; otherwise pop its head, push the
current document onto `past` (unbounded), restore and clear selection. -/
def redo (s : State) : State :=
  match s.future with
  | [] => s
  | nextState :: newFuture =>
    { fields := nextState.fields
      steps := nextState.steps
      activeStepId := nextState.activeStepId
      selectedFieldId := none
      formName := nextState.formName
      theme := nextState.theme
      past := s.past ++ [docOf s]
      future := newFuture
      nextId := s.nextId }

/-- `clearForm()`: snapshot, then reset the document (theme preserved). -/
def clearForm (s : State) : State :=
  let s1 := addToHistory s
  { s1 with
    fields := []
    steps := []
    activeStepId := none
    selectedFieldId := none
    formName := initialFormBuilderState.formName
    future := [] }

/-- The ten mutating operations (those that call `_addToHistory`). -/
inductive MutOp where
  | addField (type : FieldType)
  | updateField (id : Nat) (updates : FieldUpdate)
  | removeField (id : Nat)
  | reorderFields (startIndex endIndex : Nat)
  | setFormName (name : String)
  | addStep
  | updateStepName (stepId : Nat) (newName : String)
  | removeStep (stepId : Nat)
  | moveFieldToStep (fieldId targetStepId : Nat)
  | clearForm
deriving DecidableEq

/-- Apply one mutating operation. -/
def applyMut : MutOp → State → State
  | .addField type => addField type
  | .updateField id updates => updateField id updates
  | .removeField id => removeField id
  | .reorderFields i j => reorderFields i j
  | .setFormName name => setFormName name
  | .addStep => addStep
  | .updateStepName stepId newName => updateStepName stepId newName
  | .removeStep stepId => removeStep stepId
  | .moveFieldToStep fieldId targetStepId => moveFieldToStep fieldId targetStepId
  | .clearForm => clearForm

/-- Every store operation (mutators, view-state setters, history moves). -/
inductive Op where
  | mutOp (op : MutOp)
  | setSelectedField (id : Option Nat)
  | setActiveStep (stepId : Nat)
  | toggleTheme
  | undo
  | redo
deriving DecidableEq

/-- Apply one store operation. -/
def applyOp : Op → State → State
  | .mutOp op => applyMut op
  | .setSelectedField id => setSelectedField id
  | .setActiveStep stepId => setActiveStep stepId
  | .toggleTheme => toggleTheme
  | .undo => undo
  | .redo => redo

/-- Apply a sequence of operations, first element first. -/
def applyOps (ops : List Op) (s : State) : State :=
  ops.foldl (fun t op => applyOp op t) s

/-- Apply a sequence of mutating operations, first element first. -/
def applyMuts (ops : List MutOp) (s : State) : State :=
  ops.foldl (fun t op => applyMut op t) s

/-- `validateField` from `FormPreview.tsx`, as a pure function of the
field, the selected file (for fileUpload) and the current value, returning
the error message (`null` becomes `none`).  `compile` is the abstract
`RegExp` engine: `none` models a constructor throw on a malformed pattern.
JS truthiness of `minLength`/`maxLength`/`pattern` is a non-`none`,
non-zero / non-empty test; later checks overwrite the error of earlier
ones exactly as the source's sequential reassignment does. -/
def validateField (compile : String → Option (String → Bool)) (field : AnyFormField)
    (selectedFile : Option String) (currentValue : String) : Option String :=
  let e0 : Option String :=
    if field.required then
      if field.type = .fileUpload then
        if selectedFile = none then some (field.label ++ " is required.") else none
      else if currentValue = "" then some (field.label ++ " is required.") else none
    else none
  if field.type = .text ∨ field.type = .textarea then
    let e1 :=
      match field.validation.minLength with
      | some n =>
        if n ≠ 0 ∧ currentValue.length < n then
          some (field.label ++ " must be at least " ++ toString n ++ " characters.")
        else e0
      | none => e0
    let e2 :=
      match field.validation.maxLength with
      | some n =>
        if n ≠ 0 ∧ currentValue.length > n then
          some (field.label ++ " must be at most " ++ toString n ++ " characters.")
        else e1
      | none => e1
    if field.type = .text then
      match field.validation.pattern with
      | some p =>
        if p ≠ "" then
          match compile p with
          | some test =>
            if currentValue ≠ "" ∧ test currentValue = false then
              some (field.label ++ " format is invalid.")
            else e2
          | none => some ("Invalid validation pattern for " ++ field.label ++ ".")
        else e2
      | none => e2
    else e2
  else if field.type = .checkbox then
    if field.required ∧ currentValue ≠ "true" then some (field.label ++ " is required.")
    else e0
  else e0

/-- A regex oracle under which every pattern is malformed. -/
def rejectAllPatterns : String → Option (String → Bool) := fun _ => none

/-- A regex oracle under which every pattern compiles and matches nothing. -/
def matchNothing : String → Option (String → Bool) := fun _ => some (fun _ => false)

/-- Two steps reference disjoint sets of field ids. -/
def StepDisj (a b : FormStep) : Prop :=
  ∀ fid ∈ a.fieldIds, fid ∉ b.fieldIds

/-- Referential integrity of a document: every id in every step's
`fieldIds` names an existing field, and the `fieldIds` lists of distinct
steps are disjoint (no field id belongs to two steps). -/
def RefIntegrity (h : HistoryState) : Prop :=
  (∀ st ∈ h.steps, ∀ fid ∈ st.fieldIds, some fid ∈ h.fields.map StoredField.id) ∧
  h.steps.Pairwise StepDisj

/-- All ids appearing in a document are below the fresh-id supply. -/
def idBound (h : HistoryState) (n : Nat) : Prop :=
  (∀ f ∈ h.fields, ∀ i ∈ f.id, i < n) ∧
  (∀ st ∈ h.steps, st.id < n ∧ ∀ fid ∈ st.fieldIds, fid < n)

/-- A well-formed document: referential integrity, id-boundedness and
distinct step ids. -/
def GoodDoc (h : HistoryState) (n : Nat) : Prop :=
  RefIntegrity h ∧ idBound h n ∧ (h.steps.map FormStep.id).Nodup

/-- The inductive invariant: the live document and every stored snapshot
are well formed. -/
def GoodState (s : State) : Prop :=
  GoodDoc (docOf s) s.nextId ∧
  (∀ h ∈ s.past, GoodDoc h s.nextId) ∧
  (∀ h ∈ s.future, GoodDoc h s.nextId)

/-- Guard on an operation relative to the state it is applied in:
`moveFieldToStep` is called with the id of an existing field, and
`updateField`'s partial update does not overwrite the field id. -/
def OkOp (s : State) : Op → Bool
  | .mutOp (.moveFieldToStep fieldId _) =>
    (s.fields.map StoredField.id).contains (some fieldId)
  | .mutOp (.updateField _ updates) => updates.id.isNone
  | _ => true

/-- A sequence of operations each satisfying `OkOp` in the state where it
is applied. -/
def OkSeq : State → List Op → Bool
  | _, [] => true
  | s, op :: rest => OkOp s op && OkSeq (applyOp op s) rest

instance (a b : FormStep) : Decidable (StepDisj a b) := by
  unfold StepDisj; infer_instance

instance (h : HistoryState) : Decidable (RefIntegrity h) := by
  unfold RefIntegrity; infer_instance

instance (h : HistoryState) (n : Nat) : Decidable (idBound h n) := by
  unfold idBound; infer_instance

instance (h : HistoryState) (n : Nat) : Decidable (GoodDoc h n) := by
  unfold GoodDoc; infer_instance

instance (s : State) : Decidable (GoodState s) := by
  unfold GoodState; infer_instance

/-- A sample text field. -/
def sampleField (id : Nat) : AnyFormField :=
  { id := id, type := .text, label := "A", required := false, order := id, validation := {} }

/-- A sample state: one step holding two fields, the first not last in the
step's list. -/
def sampleTwoFieldState : State :=
  { fields := [.field (sampleField 0), .field (sampleField 1)]
    steps := [{ id := 2, name := "Step 1", fieldIds := [0, 1] }]
    activeStepId := some 2
    selectedFieldId := none
    formName := "My New Form"
    theme := .light
    past := []
    future := []
    nextId := 3 }

/-- A sample state with three steps, the selected field in the removed
(second) step, and the active step the third one. -/
def sampleThreeStepState : State :=
  { fields := [.field (sampleField 0), .field (sampleField 1), .field (sampleField 2)]
    steps := [{ id := 3, name := "Step 1", fieldIds := [0] },
              { id := 4, name := "Step 2", fieldIds := [1] },
              { id := 5, name := "Step 3", fieldIds := [2] }]
    activeStepId := some 5
    selectedFieldId := some 1
    formName := "My New Form"
    theme := .light
    past := []
    future := []
    nextId := 6 }

/-! ## History-shape lemmas -/

@[simp]
theorem addToHistory_fields (s : State) : (addToHistory s).fields = s.fields := rfl

@[simp]
theorem addToHistory_steps (s : State) : (addToHistory s).steps = s.steps := rfl

@[simp]
theorem addToHistory_activeStepId (s : State) :
    (addToHistory s).activeStepId = s.activeStepId := rfl

@[simp]
theorem addToHistory_selectedFieldId (s : State) :
    (addToHistory s).selectedFieldId = s.selectedFieldId := rfl

@[simp]
theorem addToHistory_formName (s : State) : (addToHistory s).formName = s.formName := rfl

@[simp]
theorem addToHistory_theme (s : State) : (addToHistory s).theme = s.theme := rfl

@[simp]
theorem addToHistory_nextId (s : State) : (addToHistory s).nextId = s.nextId := rfl

@[simp]
theorem addToHistory_past (s : State) :
    (addToHistory s).past = s.past.drop (s.past.length - 9) ++ [docOf s] := rfl

@[simp]
theorem addToHistory_future (s : State) : (addToHistory s).future = [] := rfl

/-- Every mutating operation leaves `past` exactly as `_addToHistory` set
it: the last nine previous entries followed by a snapshot of the pre-op
document. -/
theorem applyMut_past (op : MutOp) (s : State) :
    (applyMut op s).past = s.past.drop (s.past.length - 9) ++ [docOf s] := by
  obtain ⟨fields, steps, activeStepId, selectedFieldId, formName, theme, past, future, nextId⟩ := s
  cases op with
  | addField type =>
    show (addField type _).past = _
    unfold addField
    cases steps <;> rfl
  | removeStep stepId =>
    show (removeStep stepId _).past = _
    unfold removeStep
    rcases hf : List.find? (fun st => st.id = stepId) steps with _ | rstep
    · simp only [addToHistory_steps, hf]
      rfl
    · simp only [addToHistory_steps, hf]
      rcases hfil : List.filter (fun st => decide (st.id ≠ stepId)) steps with _ | ⟨st0, rest⟩ <;>
        simp only [hfil] <;> rfl
  | _ => rfl

/-- Every mutating operation leaves `future` empty. -/
theorem applyMut_future (op : MutOp) (s : State) : (applyMut op s).future = [] := by
  obtain ⟨fields, steps, activeStepId, selectedFieldId, formName, theme, past, future, nextId⟩ := s
  cases op with
  | addField type =>
    show (addField type _).future = _
    unfold addField
    cases steps <;> rfl
  | removeStep stepId =>
    show (removeStep stepId _).future = _
    unfold removeStep
    rcases hf : List.find? (fun st => st.id = stepId) steps with _ | rstep
    · simp only [addToHistory_steps, hf]
      rfl
    · simp only [addToHistory_steps, hf]
      rcases hfil : List.filter (fun st => decide (st.id ≠ stepId)) steps with _ | ⟨st0, rest⟩ <;>
        simp only [hfil] <;> rfl
  | _ => rfl

/-- C1: applying any of the ten mutating operations and then `undo()`
restores fields, steps, activeStepId, formName and theme exactly to the
pre-operation document, and sets the selection to `none`. -/
theorem mutate_then_undo_restores_document (op : MutOp) (s : State) :
    docOf (undo (applyMut op s)) = docOf s ∧
    (undo (applyMut op s)).selectedFieldId = none := by
  unfold undo
  rw [applyMut_past, List.getLast?_concat]
  exact ⟨rfl, rfl⟩

/-! ## C3: stored snapshots are never altered by later operations -/

/-- C3: after any store operation, every stored history entry (in `past`
or `future`) is either an entry that was already stored before the
operation, unchanged, or a snapshot of the pre-operation live document.
In the pure-value embedding deep copies are the identity, so the source's
no-shared-mutable-storage rule appears as this value-preservation frame
property: no operation ever rewrites the content of a stored snapshot. -/
theorem stored_snapshots_never_mutated (op : Op) (s : State) (e : HistoryState)
    (he : e ∈ (applyOp op s).past ++ (applyOp op s).future) :
    e ∈ s.past ++ s.future ∨ e = docOf s := by
  cases op with
  | mutOp mop =>
    simp only [applyOp] at he
    rw [applyMut_past, applyMut_future] at he
    rcases List.mem_append.mp he with h | h
    · rcases List.mem_append.mp h with h2 | h2
      · exact Or.inl (List.mem_append_left _ (List.mem_of_mem_drop h2))
      · exact Or.inr (List.mem_singleton.mp h2)
    · exact absurd h (List.not_mem_nil e)
  | setSelectedField id => exact Or.inl he
  | setActiveStep stepId => exact Or.inl he
  | toggleTheme => exact Or.inl he
  | undo =>
    simp only [applyOp] at he
    unfold undo at he
    rcases hu : s.past.getLast? with _ | prev
    · rw [hu] at he
      exact Or.inl he
    · rw [hu] at he
      simp only at he
      rcases List.mem_append.mp he with h | h
      · exact Or.inl (List.mem_append_left _ ((List.dropLast_sublist s.past).subset h))
      · rcases List.mem_cons.mp h with h2 | h2
        · exact Or.inr h2
        · exact Or.inl (List.mem_append_right _ h2)
  | redo =>
    simp only [applyOp] at he
    unfold redo at he
    rcases hu : s.future with _ | ⟨nxt, rest⟩
    · rw [hu] at he
      have he' : e ∈ s.past ++ s.future := he
      rw [hu] at he'
      exact Or.inl he'
    · rw [hu] at he
      simp only at he
      rcases List.mem_append.mp he with h | h
      · rcases List.mem_append.mp h with h2 | h2
        · exact Or.inl (List.mem_append_left _ h2)
        · exact Or.inr (List.mem_singleton.mp h2)
      · exact Or.inl (List.mem_append_right _ (List.mem_cons_of_mem _ h))

/-- Witness for C3 at a concrete input. -/
theorem stored_snapshots_never_mutated_witness :
    (docOf initialFormBuilderState ∈
      (applyOp (.mutOp .addStep) initialFormBuilderState).past ++
      (applyOp (.mutOp .addStep) initialFormBuilderState).future) ∧
    (docOf initialFormBuilderState ∈
        initialFormBuilderState.past ++ initialFormBuilderState.future ∨
      docOf initialFormBuilderState = docOf initialFormBuilderState) :=
  ⟨by decide,
   stored_snapshots_never_mutated (.mutOp .addStep) initialFormBuilderState
     (docOf initialFormBuilderState) (by decide)⟩

/-! ## C4: the past stack is bounded to 10 entries -/

theorem applyMut_past_length (op : MutOp) (s : State) :
    (applyMut op s).past.length = min (s.past.length + 1) 10 := by
  rw [applyMut_past]
  simp only [List.length_append, List.length_drop, List.length_singleton]
  omega

theorem applyMuts_past_length :
    ∀ (ops : List MutOp) (s : State), ops ≠ [] →
      (applyMuts ops s).past.length = min (s.past.length + ops.length) 10
  | [op], s, _ => by
    rw [show applyMuts [op] s = applyMut op s from rfl, applyMut_past_length]
    simp
  | op :: op2 :: rest, s, _ => by
    have h1 : applyMuts (op :: op2 :: rest) s = applyMuts (op2 :: rest) (applyMut op s) := rfl
    rw [h1, applyMuts_past_length (op2 :: rest) (applyMut op s) (by simp),
      applyMut_past_length]
    simp only [List.length_cons]
    omega

theorem undo_past_length (s : State) : (undo s).past.length = s.past.length - 1 := by
  unfold undo
  rcases hu : s.past.getLast? with _ | prev
  · have : s.past = [] := by simpa using hu
    simp [this]
  · simp [List.length_dropLast]

theorem undo_iterate_past_length (k : Nat) (s : State) :
    (undo^[k] s).past.length = s.past.length - k := by
  induction k with
  | zero => rfl
  | succ n ih =>
    rw [Function.iterate_succ_apply', undo_past_length, ih]
    omega

theorem undo_of_empty_past (s : State) (h : s.past = []) : undo s = s := by
  unfold undo
  rw [h]
  rfl

/-- C4: after more than ten consecutive mutating operations the past stack
holds exactly ten entries; ten `undo()` calls drain it, and a further
`undo()` is a no-op (the state is returned unchanged). -/
theorem history_bounded_to_ten (s : State) (ops : List MutOp) (h : 10 < ops.length) :
    (applyMuts ops s).past.length = 10 ∧
    (undo^[10] (applyMuts ops s)).past = [] ∧
    undo (undo^[10] (applyMuts ops s)) = undo^[10] (applyMuts ops s) := by
  have h1 : (applyMuts ops s).past.length = 10 := by
    rw [applyMuts_past_length ops s (by rintro rfl; simp at h)]
    omega
  have h2 : (undo^[10] (applyMuts ops s)).past = [] := by
    apply List.length_eq_zero.mp
    rw [undo_iterate_past_length, h1]
  exact ⟨h1, h2, undo_of_empty_past _ h2⟩

/-- Witness for C4 at a concrete input: eleven `addStep` operations. -/
theorem history_bounded_to_ten_witness :
    (applyMuts (List.replicate 11 .addStep) initialFormBuilderState).past.length = 10 ∧
    (undo^[10] (applyMuts (List.replicate 11 .addStep) initialFormBuilderState)).past = [] ∧
    undo (undo^[10] (applyMuts (List.replicate 11 .addStep) initialFormBuilderState)) =
      undo^[10] (applyMuts (List.replicate 11 .addStep) initialFormBuilderState) :=
  history_bounded_to_ten initialFormBuilderState (List.replicate 11 .addStep) (by decide)

/-! ## C5: moveFieldToStep -/

theorem map_eq_self_of_mem {α : Type} (l : List α) (f : α → α) (h : ∀ x ∈ l, f x = x) :
    l.map f = l := by
  induction l with
  | nil => rfl
  | cons a t ih =>
    simp only [List.map_cons, h a (List.mem_cons_self a t), List.cons.injEq, true_and]
    exact ih (fun x hx => h x (List.mem_cons_of_mem a hx))

theorem contains_filter_ne (l : List Nat) (x : Nat) :
    (l.filter (fun fid => fid ≠ x)).contains x = false := by
  simp [List.contains]

/-- C5 counterexample: in a state whose single step (id 2) holds the field
ids `[0, 1]`, field 0 already belongs to the target step, yet
`moveFieldToStep(0, 2)` changes the step list: the field is moved to the
end, giving `[1, 0]`. -/
theorem moveFieldToStep_reorders_existing_member :
    sampleTwoFieldState.steps.map FormStep.fieldIds = [[0, 1]] ∧
    (applyMut (.moveFieldToStep 0 2) sampleTwoFieldState).steps.map FormStep.fieldIds =
      [[1, 0]] ∧
    (applyMut (.moveFieldToStep 0 2) sampleTwoFieldState).steps ≠
      sampleTwoFieldState.steps := by
  decide

/-- C5 amended: `moveFieldToStep(fieldId, targetStepId)` removes `fieldId`
from every step's list and appends it to the end of the target step's
list.  When the field is already in the target step, membership is
preserved but the field is moved to the last position; the step list is
unchanged exactly when the field was already the last entry of the target
step's list and appeared in no other step. -/
theorem moveFieldToStep_removes_then_appends (s : State) (fieldId targetStepId : Nat) :
    (applyMut (.moveFieldToStep fieldId targetStepId) s).steps =
      s.steps.map (fun st =>
        if st.id = targetStepId then
          { st with fieldIds := st.fieldIds.filter (fun fid => fid ≠ fieldId) ++ [fieldId] }
        else
          { st with fieldIds := st.fieldIds.filter (fun fid => fid ≠ fieldId) }) ∧
    ((∀ st ∈ s.steps,
        (st.id = targetStepId → ∃ l, st.fieldIds = l ++ [fieldId] ∧ fieldId ∉ l) ∧
        (st.id ≠ targetStepId → fieldId ∉ st.fieldIds)) →
      (applyMut (.moveFieldToStep fieldId targetStepId) s).steps = s.steps) := by
  have hmain :
      (applyMut (.moveFieldToStep fieldId targetStepId) s).steps =
        s.steps.map (fun st =>
          if st.id = targetStepId then
            { st with fieldIds := st.fieldIds.filter (fun fid => fid ≠ fieldId) ++ [fieldId] }
          else
            { st with fieldIds := st.fieldIds.filter (fun fid => fid ≠ fieldId) }) := by
    show (moveFieldToStep fieldId targetStepId s).steps = _
    unfold moveFieldToStep
    simp only [addToHistory_steps]
    apply List.map_congr_left
    intro st _
    by_cases hid : st.id = targetStepId <;> simp [hid, contains_filter_ne]
  refine ⟨hmain, fun hall => ?_⟩
  rw [hmain]
  apply map_eq_self_of_mem
  intro st hst
  by_cases hid : st.id = targetStepId
  · obtain ⟨l, hl, hnot⟩ := (hall st hst).1 hid
    have hfil : (st.fieldIds.filter (fun fid => fid ≠ fieldId)) = l := by
      rw [hl, List.filter_append]
      have h1 : l.filter (fun fid => fid ≠ fieldId) = l :=
        List.filter_eq_self.mpr (fun a ha => by
          simp only [ne_eq, decide_eq_true_eq]
          exact fun hk => hnot (hk ▸ ha))
      have h2 : [fieldId].filter (fun fid => fid ≠ fieldId) = [] := by simp
      rw [h1, h2, List.append_nil]
    rw [if_pos hid, hfil, ← hl]
  · have hnot := (hall st hst).2 hid
    have h1 : (st.fieldIds.filter (fun fid => fid ≠ fieldId)) = st.fieldIds :=
      List.filter_eq_self.mpr (fun a ha => by
        simp only [ne_eq, decide_eq_true_eq]
        exact fun hk => hnot (hk ▸ ha))
    rw [if_neg hid, h1]

/-- Witness for C5 at a concrete input: the field is already the last
entry of the target step, so the step list is unchanged. -/
theorem moveFieldToStep_removes_then_appends_witness :
    (applyMut (.moveFieldToStep 1 2) sampleTwoFieldState).steps =
      sampleTwoFieldState.steps :=
  (moveFieldToStep_removes_then_appends sampleTwoFieldState 1 2).2 (by
    intro st hst
    rw [show sampleTwoFieldState.steps =
      [{ id := 2, name := "Step 1", fieldIds := [0, 1] }] from rfl,
      List.mem_singleton] at hst
    subst hst
    exact ⟨fun _ => ⟨[0], rfl, by decide⟩, fun hne => absurd rfl hne⟩)

/-! ## C6: required + empty value -/

/-- C6 counterexample: a required text field with `minLength = 3` and an
empty value yields the too-short error, not the required-error: the
min-length check runs after the required check and overwrites its message. -/
theorem required_empty_minLength_overwrites :
    validateField rejectAllPatterns
      { sampleField 0 with required := true, validation := { minLength := some 3 } }
      none "" = some "A must be at least 3 characters." ∧
    validateField rejectAllPatterns
      { sampleField 0 with required := true, validation := { minLength := some 3 } }
      none "" ≠ some "A is required." := by
  exact ⟨by decide, by decide⟩

set_option maxHeartbeats 2000000 in
/-- C6 amended: a required field with an empty value (or, for fileUpload,
no selected file) always yields some error; the error is the
required-error itself unless a later check overwrites it, which for an
empty value happens exactly for text/textarea fields with a non-zero
`minLength` (too-short error) and for text fields with a non-empty pattern
that fails to compile (configuration error). -/
theorem required_empty_yields_error (compile : String → Option (String → Bool))
    (field : AnyFormField) (file : Option String) (value : String)
    (hreq : field.required = true)
    (hempty : (field.type = .fileUpload ∧ file = none) ∨
      (field.type ≠ .fileUpload ∧ value = "")) :
    (validateField compile field file value).isSome = true ∧
    (((field.type = .text ∨ field.type = .textarea) →
        field.validation.minLength = none ∨ field.validation.minLength = some 0) →
      (field.type = .text →
        ∀ p, field.validation.pattern = some p → p = "" ∨ (compile p).isSome = true) →
      validateField compile field file value = some (field.label ++ " is required.")) := by
  rcases hempty with ⟨htype, hfile⟩ | ⟨htype, hval⟩
  · unfold validateField
    rw [hreq, htype, hfile]
    simp
  · subst hval
    unfold validateField
    rw [hreq]
    rcases ht : field.type <;> simp only [ht] at htype ⊢ <;> try simp at htype
    case text =>
      refine ⟨?_, ?_⟩
      · rcases hm : field.validation.minLength with _ | n <;>
          rcases hx : field.validation.maxLength with _ | m <;>
          rcases hp : field.validation.pattern with _ | p <;>
            simp only [] <;> (repeat' split) <;> first | rfl | simp_all
      · intro hmin hpat
        have hm2 := hmin (Or.inl trivial)
        rcases hq : field.validation.pattern with _ | p
        · rcases hm2 with hm2 | hm2 <;> rw [hm2] <;>
            rcases hx : field.validation.maxLength with _ | m <;> simp
        · rcases hpat trivial p hq with rfl | hp2
          · rcases hm2 with hm2 | hm2 <;> rw [hm2] <;>
              rcases hx : field.validation.maxLength with _ | m <;> simp
          · obtain ⟨test, hc⟩ := Option.isSome_iff_exists.mp hp2
            rcases hm2 with hm2 | hm2 <;> rw [hm2] <;>
              rcases hx : field.validation.maxLength with _ | m <;> simp [hc]
    case textarea =>
      refine ⟨?_, ?_⟩
      · rcases hm : field.validation.minLength with _ | n <;>
          rcases hx : field.validation.maxLength with _ | m <;>
            simp only [] <;> (repeat' split) <;> first | rfl | simp_all
      · intro hmin _
        have hm2 := hmin (Or.inr trivial)
        rcases hm2 with hm2 | hm2 <;> rw [hm2] <;>
          rcases hx : field.validation.maxLength with _ | m <;> simp
    case dropdown => simp
    case checkbox => simp
    case date => simp

/-- Witness for C6 at a concrete input: a required text field with no
length or pattern constraints and an empty value. -/
theorem required_empty_yields_error_witness :
    (validateField rejectAllPatterns { sampleField 0 with required := true } none "").isSome =
      true ∧
    validateField rejectAllPatterns { sampleField 0 with required := true } none "" =
      some ("A" ++ " is required.") :=
  have h := required_empty_yields_error rejectAllPatterns
    { sampleField 0 with required := true } none "" rfl (Or.inr ⟨by decide, rfl⟩)
  ⟨h.1, h.2 (fun _ => Or.inl rfl) (fun _ p hp => Option.noConfusion hp)⟩

/-! ## C7: pattern validation and malformed patterns -/

/-- C7: for a text field with a non-empty `pattern`: if the pattern fails
to compile, validation yields the configuration error instead of crashing
(the `catch` branch); if it compiles and a non-empty value fails to match,
validation yields the format error; and the two messages are distinct for
every label. -/
theorem pattern_validation_total (compile : String → Option (String → Bool))
    (field : AnyFormField) (file : Option String) (value p : String)
    (htype : field.type = .text) (hp : field.validation.pattern = some p)
    (hpne : p ≠ "") (hv : value ≠ "") :
    (compile p = none →
      validateField compile field file value =
        some ("Invalid validation pattern for " ++ field.label ++ ".")) ∧
    (∀ test, compile p = some test → test value = false →
      validateField compile field file value = some (field.label ++ " format is invalid.")) ∧
    (∀ l : String,
      ("Invalid validation pattern for " ++ l ++ ".") ≠ (l ++ " format is invalid.")) := by
  refine ⟨?_, ?_, ?_⟩
  · intro hc
    unfold validateField
    rw [htype]
    simp only [reduceIte]
    rw [hp]
    simp [hpne, hc]
  · intro test hc hfail
    unfold validateField
    rw [htype]
    simp only [reduceIte]
    rw [hp]
    simp [hpne, hc, hv, hfail]
  · intro l hcontra
    have hlen := congrArg String.length hcontra
    have h1 : "Invalid validation pattern for ".length = 31 := rfl
    have h2 : ".".length = 1 := rfl
    have h3 : " format is invalid.".length = 19 := rfl
    simp only [String.length_append, h1, h2, h3] at hlen
    omega

/-- Witness for C7 at concrete inputs: a malformed pattern under an
oracle that rejects it, and a compiling pattern whose match fails. -/
theorem pattern_validation_total_witness :
    validateField rejectAllPatterns
      { sampleField 0 with validation := { pattern := some "(" } } none "x" =
      some ("Invalid validation pattern for " ++ "A" ++ ".") ∧
    validateField matchNothing
      { sampleField 0 with validation := { pattern := some "x" } } none "y" =
      some ("A" ++ " format is invalid.") :=
  ⟨(pattern_validation_total rejectAllPatterns
      { sampleField 0 with validation := { pattern := some "(" } } none "x" "("
      rfl rfl (by decide) (by decide)).1 rfl,
   (pattern_validation_total matchNothing
      { sampleField 0 with validation := { pattern := some "x" } } none "y" "x"
      rfl rfl (by decide) (by decide)).2.1 (fun _ => false) rfl rfl⟩

@[simp]
theorem storedField_id_field (f : AnyFormField) : (StoredField.field f).id = some f.id := rfl

@[simp]
theorem storedField_id_junk (o : Nat) : (StoredField.junk o).id = none := rfl

theorem setOrder_id (f : StoredField) (o : Nat) : (setOrder f o).id = f.id := by
  cases f <;> rfl

/-! ## C9: updateField with a missing id -/

/-- C9 counterexample: `updateField` on an id that matches no field still
pushes a history snapshot and clears `future`, so the resulting store
state is not equal to the pre-call state: from the initial state, the
`past` stack goes from `[]` to one snapshot. -/
theorem updateField_missing_id_changes_history :
    applyMut (.updateField 0 {}) initialFormBuilderState ≠ initialFormBuilderState ∧
    initialFormBuilderState.past = [] ∧
    (applyMut (.updateField 0 {}) initialFormBuilderState).past =
      [docOf initialFormBuilderState] := by
  refine ⟨by decide, rfl, by decide⟩

/-- C9 amended: `updateField(id, u)` with an id matching no field leaves
the visible document (fields, steps, activeStepId, selectedFieldId,
formName, theme) unchanged, but it is not a no-op on the whole store
state: a snapshot of the pre-call document is pushed onto `past` and
`future` is cleared, exactly as for any other mutating operation. -/
theorem updateField_missing_id_document_noop (s : State) (id : Nat) (u : FieldUpdate)
    (h : some id ∉ s.fields.map StoredField.id) :
    (applyMut (.updateField id u) s).fields = s.fields ∧
    (applyMut (.updateField id u) s).steps = s.steps ∧
    (applyMut (.updateField id u) s).activeStepId = s.activeStepId ∧
    (applyMut (.updateField id u) s).selectedFieldId = s.selectedFieldId ∧
    (applyMut (.updateField id u) s).formName = s.formName ∧
    (applyMut (.updateField id u) s).theme = s.theme ∧
    (applyMut (.updateField id u) s).past =
      s.past.drop (s.past.length - 9) ++ [docOf s] ∧
    (applyMut (.updateField id u) s).future = [] := by
  refine ⟨?_, rfl, rfl, rfl, rfl, rfl, rfl, rfl⟩
  show (s.fields.map (fun f =>
    match f with
    | .field g => if g.id = id then .field (mergeField g u) else .field g
    | .junk o => .junk o)) = s.fields
  apply map_eq_self_of_mem
  intro f hf
  cases f with
  | junk o => rfl
  | field g =>
    have hne : g.id ≠ id := fun heq =>
      h (List.mem_map.mpr ⟨.field g, hf, congrArg some heq⟩)
    show (if g.id = id then StoredField.field (mergeField g u) else .field g) = .field g
    rw [if_neg hne]

/-- Witness for C9 at a concrete input. -/
theorem updateField_missing_id_document_noop_witness :
    (applyMut (.updateField 99 {}) sampleTwoFieldState).fields =
      sampleTwoFieldState.fields ∧
    (applyMut (.updateField 99 {}) sampleTwoFieldState).steps =
      sampleTwoFieldState.steps ∧
    (applyMut (.updateField 99 {}) sampleTwoFieldState).activeStepId =
      sampleTwoFieldState.activeStepId ∧
    (applyMut (.updateField 99 {}) sampleTwoFieldState).selectedFieldId =
      sampleTwoFieldState.selectedFieldId ∧
    (applyMut (.updateField 99 {}) sampleTwoFieldState).formName =
      sampleTwoFieldState.formName ∧
    (applyMut (.updateField 99 {}) sampleTwoFieldState).theme =
      sampleTwoFieldState.theme ∧
    (applyMut (.updateField 99 {}) sampleTwoFieldState).past =
      sampleTwoFieldState.past.drop (sampleTwoFieldState.past.length - 9) ++
        [docOf sampleTwoFieldState] ∧
    (applyMut (.updateField 99 {}) sampleTwoFieldState).future = [] :=
  updateField_missing_id_document_noop sampleTwoFieldState 99 {} (by decide)

/-! ## C10: removeStep active-step and selection behaviour -/

/-- C10: with at least two (distinct-id) steps, `removeStep` on an
existing step sets `activeStepId` to the first remaining step's id —
unconditionally, even when the removed step was not the active one — and
clears the selection whenever the selected field was among the removed
step's `fieldIds`, although that field is still referenced: it is
reassigned to the first remaining step. -/
theorem removeStep_activates_first_and_deselects (s : State) (stepId : Nat)
    (h2 : 2 ≤ s.steps.length)
    (hnodup : (s.steps.map FormStep.id).Nodup)
    (hmem : stepId ∈ s.steps.map FormStep.id) :
    (applyMut (.removeStep stepId) s).activeStepId =
      ((s.steps.filter (fun st => st.id ≠ stepId)).head?.map FormStep.id) ∧
    (∀ rstep, s.steps.find? (fun st => st.id = stepId) = some rstep →
      ∀ f, s.selectedFieldId = some f → f ∈ rstep.fieldIds →
        ((applyMut (.removeStep stepId) s).selectedFieldId = none ∧
          ∃ st ∈ (applyMut (.removeStep stepId) s).steps, f ∈ st.fieldIds)) := by
  obtain ⟨rstep0, hr0mem, hr0id⟩ := List.mem_map.mp hmem
  have hfindSome : (s.steps.find? (fun st => st.id = stepId)).isSome :=
    List.find?_isSome.mpr ⟨rstep0, hr0mem, by simp [hr0id]⟩
  obtain ⟨rstep, hfind⟩ := Option.isSome_iff_exists.mp hfindSome
  have hfilne : s.steps.filter (fun st => st.id ≠ stepId) ≠ [] := by
    intro hnil
    have hall := List.filter_eq_nil_iff.mp hnil
    rcases hs : s.steps with _ | ⟨a, _ | ⟨b, t⟩⟩
    · rw [hs] at h2; simp at h2
    · rw [hs] at h2; simp at h2
    · have ha := hall a (by rw [hs]; exact List.mem_cons_self _ _)
      have hb := hall b (by rw [hs]; exact List.mem_cons_of_mem _ (List.mem_cons_self _ _))
      simp only [ne_eq, decide_not, Bool.not_eq_true', decide_eq_false_iff_not,
        Decidable.not_not] at ha hb
      rw [hs] at hnodup
      simp only [List.map_cons, List.nodup_cons, List.mem_cons] at hnodup
      exact hnodup.1 (Or.inl (by rw [ha, hb]))
  obtain ⟨first, rest, hfil⟩ := List.exists_cons_of_ne_nil hfilne
  have happly :
      applyMut (.removeStep stepId) s =
        { addToHistory s with
          steps :=
            if rstep.fieldIds.length > 0 then
              modifyFirst (fun st => st.id = first.id)
                (fun st => { st with fieldIds := st.fieldIds ++ rstep.fieldIds })
                (first :: rest)
            else first :: rest
          activeStepId := some first.id
          selectedFieldId :=
            if (match s.selectedFieldId with
                | some f => rstep.fieldIds.contains f
                | none => false) then
              none
            else s.selectedFieldId } := by
    show removeStep stepId s = _
    unfold removeStep
    simp only [addToHistory_steps, addToHistory_selectedFieldId, hfind, hfil]
  constructor
  · rw [happly, hfil]
    rfl
  · intro rstep2 hfind2 f hsel hf
    have hreq : rstep2 = rstep := by
      rw [hfind] at hfind2
      exact (Option.some.injEq _ _ ▸ hfind2).symm
    subst hreq
    have hlen : rstep2.fieldIds.length > 0 := List.length_pos.mpr (List.ne_nil_of_mem hf)
    constructor
    · rw [happly]
      simp only [hsel, List.elem_eq_true_of_mem hf]
      rfl
    · refine ⟨{ first with fieldIds := first.fieldIds ++ rstep2.fieldIds }, ?_, ?_⟩
      · rw [happly]
        simp only [if_pos hlen]
        show _ ∈ modifyFirst _ _ (first :: rest)
        unfold modifyFirst
        rw [if_pos (by simp)]
        exact List.mem_cons_self _ _
      · exact List.mem_append_right _ hf

/-- Witness for C10 at a concrete input: removing the (non-active) second
step of a three-step document. -/
theorem removeStep_activates_first_and_deselects_witness :
    ((applyMut (.removeStep 4) sampleThreeStepState).activeStepId = some 3) ∧
    ((applyMut (.removeStep 4) sampleThreeStepState).selectedFieldId = none ∧
      ∃ st ∈ (applyMut (.removeStep 4) sampleThreeStepState).steps, 1 ∈ st.fieldIds) :=
  ⟨(removeStep_activates_first_and_deselects sampleThreeStepState 4
      (by decide) (by decide) (by decide)).1.trans (by decide),
   (removeStep_activates_first_and_deselects sampleThreeStepState 4
      (by decide) (by decide) (by decide)).2
      { id := 4, name := "Step 2", fieldIds := [1] } (by decide) 1 rfl (by decide)⟩

/-! ## C8: field-id immutability -/

/-- C8 counterexample: `updateField` merges the whole partial update,
including an `id` key, so a partial update carrying `id` renames the
field: `{ id: 5 }` applied to field 0 changes the id list
`[some 0, some 1]` to `[some 5, some 1]`. -/
theorem updateField_can_change_id :
    (applyMut (.updateField 0 { id := some 5 }) sampleTwoFieldState).fields.map
        StoredField.id ≠ sampleTwoFieldState.fields.map StoredField.id ∧
    sampleTwoFieldState.fields.map StoredField.id = [some 0, some 1] ∧
    (applyMut (.updateField 0 { id := some 5 }) sampleTwoFieldState).fields.map
        StoredField.id = [some 5, some 1] := by
  decide

theorem mkNewField_id (t : FieldType) (i o : Nat) : (mkNewField t i o).id = i := by
  cases t <;> rfl

theorem map_id_filter (l : List StoredField) (id : Nat) :
    (l.filter (fun f => f.id ≠ some id)).map StoredField.id =
      (l.map StoredField.id).filter (fun x => x ≠ some id) := by
  induction l with
  | nil => rfl
  | cons a t ih =>
    simp only [ne_eq, decide_not] at ih ⊢
    by_cases h : a.id = some id <;> simp [List.filter_cons, h, ih]

theorem updateField_map_id (fields : List StoredField) (id : Nat) (u : FieldUpdate)
    (hu : u.id = none) :
    (fields.map (fun f =>
      match f with
      | .field g => if g.id = id then StoredField.field (mergeField g u) else .field g
      | .junk o => .junk o)).map StoredField.id = fields.map StoredField.id := by
  rw [List.map_map]
  apply List.map_congr_left
  intro f _
  cases f with
  | junk o => rfl
  | field g =>
    show StoredField.id (if g.id = id then StoredField.field (mergeField g u) else .field g) =
      some g.id
    by_cases h : g.id = id
    · rw [if_pos h]
      show some (mergeField g u).id = some g.id
      unfold mergeField
      rw [hu]
      rfl
    · rw [if_neg h]
      exact storedField_id_field g

theorem enum_eq_enumFrom (l : List (Option StoredField)) : l.enum = List.enumFrom 0 l := rfl

/-- The renumbering map's effect on ids: an element carried over keeps its
id (`setOrder` does not touch it), the `undefined` element becomes the
junk record with id `none`. -/
theorem map_id_build (l : List (Option StoredField)) :
    ∀ n, ((List.enumFrom n l).map (fun p =>
        match p.2 with
        | some f => setOrder f p.1
        | none => StoredField.junk p.1)).map StoredField.id =
      l.map (fun x => x.bind StoredField.id) := by
  induction l with
  | nil => intro n; rfl
  | cons a t ih =>
    intro n
    simp only [List.enumFrom, List.map_cons, ih (n + 1)]
    cases a with
    | none => rfl
    | some f => simp [setOrder_id]

theorem map_bind_id_map_some (l : List StoredField) :
    (l.map some).map (fun x : Option StoredField => x.bind StoredField.id) =
      l.map StoredField.id := by
  rw [List.map_map]
  exact List.map_congr_left (fun a _ => rfl)

/-- The id list after `reorderFields`: a permutation of the old id list
when `startIndex` is in range; a permutation of the old id list plus one
`none` entry (the junk record spliced in from `undefined`) when it is out
of range. -/
theorem reorderFields_fields_perm (s : State) (i j : Nat) :
    (i < s.fields.length →
      ((reorderFields i j s).fields.map StoredField.id).Perm
        (s.fields.map StoredField.id)) ∧
    (s.fields.length ≤ i →
      ((reorderFields i j s).fields.map StoredField.id).Perm
        (none :: s.fields.map StoredField.id)) := by
  have hperm : (s.fields.mergeSort (fun a b => a.order ≤ b.order)).Perm s.fields :=
    List.mergeSort_perm s.fields _
  have hlen := hperm.length_eq
  constructor
  · intro hi
    have h : i < (s.fields.mergeSort (fun a b => a.order ≤ b.order)).length := by
      rw [hlen]
      exact hi
    unfold reorderFields
    simp only [addToHistory_fields]
    rw [dif_pos h, if_pos h, enum_eq_enumFrom, map_id_build]
    set w := (s.fields.mergeSort (fun a b => a.order ≤ b.order)).eraseIdx i with hw
    set r := (s.fields.mergeSort (fun a b => a.order ≤ b.order)).get ⟨i, h⟩ with hr
    set k := min j w.length with hk
    rw [List.map_append, List.map_append, map_bind_id_map_some, map_bind_id_map_some]
    have hone : ([some r].map (fun x : Option StoredField => x.bind StoredField.id)) =
        [r].map StoredField.id := rfl
    rw [hone, ← List.map_append, ← List.map_append]
    refine List.Perm.map _ (List.Perm.trans ?_ hperm)
    have h1 : (w.take k ++ [r] ++ w.drop k).Perm (r :: (w.take k ++ w.drop k)) := by
      rw [List.append_assoc]
      exact List.perm_middle
    rw [List.take_append_drop] at h1
    have h3 : (s.fields.mergeSort (fun a b => a.order ≤ b.order)).Perm
        (r :: (s.fields.mergeSort (fun a b => a.order ≤ b.order)).erase r) :=
      List.perm_cons_erase (List.get_mem _ i h)
    have h4 : ((s.fields.mergeSort (fun a b => a.order ≤ b.order)).erase r).Perm w :=
      List.erase_get ⟨i, h⟩
    exact h1.trans ((List.Perm.cons r h4.symm).trans h3.symm)
  · intro hi
    have h : ¬ i < (s.fields.mergeSort (fun a b => a.order ≤ b.order)).length := by
      rw [hlen]
      omega
    unfold reorderFields
    simp only [addToHistory_fields]
    rw [dif_neg h, if_neg h, enum_eq_enumFrom, map_id_build]
    set w := s.fields.mergeSort (fun a b => a.order ≤ b.order) with hw
    set k := min j w.length with hk
    rw [List.map_append, List.map_append, map_bind_id_map_some, map_bind_id_map_some]
    have hone : ([(none : Option StoredField)].map
        (fun x : Option StoredField => x.bind StoredField.id)) = [none] := rfl
    rw [hone, List.append_assoc]
    have h1 : ((w.take k).map StoredField.id ++
        ((none : Option Nat) :: (w.drop k).map StoredField.id)).Perm
        (none :: ((w.take k).map StoredField.id ++ (w.drop k).map StoredField.id)) :=
      List.perm_middle
    refine h1.trans (List.Perm.cons none ?_)
    rw [← List.map_append, List.take_append_drop]
    exact List.Perm.map _ hperm

/-- C8 amended: a field's id is immutable under every structural operation
except `updateField` with a partial update that itself carries an `id`
key.  In detail: `updateField` with an id-free update preserves the id
list exactly; `addField` appends exactly one fresh id; `removeField`
removes exactly the occurrences of the given id (junk records, whose id is
undefined, are kept); `reorderFields` with an in-range `startIndex`
permutes the id list, and with an out-of-range `startIndex` yields a
permutation of the old id list plus one id-less junk record; the remaining
mutators (`setFormName`, `addStep`, `updateStepName`, `removeStep`,
`moveFieldToStep`) leave the field list untouched; `clearForm` empties
it. -/
theorem field_ids_characterization (s : State) :
    (∀ id u, u.id = none →
      (applyMut (.updateField id u) s).fields.map StoredField.id =
        s.fields.map StoredField.id) ∧
    (∀ t, (applyMut (.addField t) s).fields.map StoredField.id =
        s.fields.map StoredField.id ++ [some s.nextId]) ∧
    (∀ id, (applyMut (.removeField id) s).fields.map StoredField.id =
        (s.fields.map StoredField.id).filter (fun x => x ≠ some id)) ∧
    (∀ i j, (i < s.fields.length →
        ((applyMut (.reorderFields i j) s).fields.map StoredField.id).Perm
          (s.fields.map StoredField.id)) ∧
      (s.fields.length ≤ i →
        ((applyMut (.reorderFields i j) s).fields.map StoredField.id).Perm
          (none :: s.fields.map StoredField.id))) ∧
    (∀ name, (applyMut (.setFormName name) s).fields = s.fields) ∧
    ((applyMut .addStep s).fields = s.fields) ∧
    (∀ stepId newName, (applyMut (.updateStepName stepId newName) s).fields = s.fields) ∧
    (∀ stepId, (applyMut (.removeStep stepId) s).fields = s.fields) ∧
    (∀ fid tid, (applyMut (.moveFieldToStep fid tid) s).fields = s.fields) ∧
    ((applyMut .clearForm s).fields = []) := by
  refine ⟨?_, ?_, ?_, fun i j => reorderFields_fields_perm s i j, fun _ => rfl, rfl,
    fun _ _ => rfl, ?_, fun _ _ => rfl, rfl⟩
  · intro id u hu
    exact updateField_map_id s.fields id u hu
  · intro t
    obtain ⟨fields, steps, activeStepId, selectedFieldId, formName, theme, past, future,
      nextId⟩ := s
    show (addField t _).fields.map StoredField.id = _
    unfold addField
    cases steps <;> simp [mkNewField_id]
  · intro id
    exact map_id_filter s.fields id
  · intro stepId
    obtain ⟨fields, steps, activeStepId, selectedFieldId, formName, theme, past, future,
      nextId⟩ := s
    show (removeStep stepId _).fields = _
    unfold removeStep
    rcases hf : List.find? (fun st => st.id = stepId) steps with _ | rstep
    · simp only [addToHistory_steps, hf]
      rfl
    · simp only [addToHistory_steps, hf]
      rcases hfil : List.filter (fun st => decide (st.id ≠ stepId)) steps with
        _ | ⟨st0, rest⟩ <;> simp only [hfil] <;> rfl

/-- Witness for C8 at a concrete input: an id-free update preserves the
id list. -/
theorem field_ids_characterization_witness :
    (applyMut (.updateField 0 {}) sampleTwoFieldState).fields.map StoredField.id =
      sampleTwoFieldState.fields.map StoredField.id :=
  (field_ids_characterization sampleTwoFieldState).1 0 {} rfl

/-! ## C2: referential integrity -/

theorem stepDisj_symm {a b : FormStep} (h : StepDisj a b) : StepDisj b a :=
  fun fid hb ha => h fid ha hb

theorem mem_modifyFirst (p : FormStep → Bool) (g : FormStep → FormStep) :
    ∀ (l : List FormStep) (y : FormStep), y ∈ modifyFirst p g l →
      y ∈ l ∨ ∃ x, x ∈ l ∧ y = g x
  | [], y, h => absurd h (List.not_mem_nil y)
  | st :: rest, y, h => by
    unfold modifyFirst at h
    by_cases hp : p st
    · rw [if_pos hp] at h
      rcases List.mem_cons.mp h with h1 | h1
      · exact Or.inr ⟨st, List.mem_cons_self _ _, h1⟩
      · exact Or.inl (List.mem_cons_of_mem _ h1)
    · rw [if_neg hp] at h
      rcases List.mem_cons.mp h with h1 | h1
      · exact Or.inl (h1 ▸ List.mem_cons_self _ _)
      · rcases mem_modifyFirst p g rest y h1 with h2 | ⟨x, hx, hy⟩
        · exact Or.inl (List.mem_cons_of_mem _ h2)
        · exact Or.inr ⟨x, List.mem_cons_of_mem _ hx, hy⟩

theorem modifyFirst_map_id (p : FormStep → Bool) (g : FormStep → FormStep)
    (hg : ∀ st, (g st).id = st.id) :
    ∀ l : List FormStep, (modifyFirst p g l).map FormStep.id = l.map FormStep.id
  | [] => rfl
  | st :: rest => by
    unfold modifyFirst
    by_cases hp : p st
    · rw [if_pos hp]
      simp [hg]
    · rw [if_neg hp]
      simp [modifyFirst_map_id p g hg rest]

theorem pairwise_modifyFirst_append (p : FormStep → Bool) (extra : List Nat) :
    ∀ l : List FormStep,
      l.Pairwise StepDisj →
      (∀ st ∈ l, ∀ x ∈ extra, x ∉ st.fieldIds) →
      (modifyFirst p (fun st => { st with fieldIds := st.fieldIds ++ extra }) l).Pairwise
        StepDisj
  | [], _, _ => List.Pairwise.nil
  | st :: rest, hpair, hfresh => by
    rcases List.pairwise_cons.mp hpair with ⟨hst, hrest⟩
    unfold modifyFirst
    by_cases hp : p st
    · rw [if_pos hp]
      refine List.pairwise_cons.mpr ⟨?_, hrest⟩
      intro y hy fid hfid
      rcases List.mem_append.mp hfid with h1 | h1
      · exact hst y hy fid h1
      · exact hfresh y (List.mem_cons_of_mem _ hy) fid h1
    · rw [if_neg hp]
      refine List.pairwise_cons.mpr
        ⟨?_, pairwise_modifyFirst_append p extra rest hrest
          (fun st2 h2 => hfresh st2 (List.mem_cons_of_mem _ h2))⟩
      intro y hy fid hfid
      rcases mem_modifyFirst p _ rest y hy with h1 | ⟨x, hx, hyx⟩
      · exact hst y h1 fid hfid
      · subst hyx
        intro hmem
        rcases List.mem_append.mp hmem with h2 | h2
        · exact hst x hx fid hfid h2
        · exact hfresh st (List.mem_cons_self _ _) fid h2 hfid

theorem GoodDoc.mono {h : HistoryState} {n m : Nat} (hg : GoodDoc h n) (hnm : n ≤ m) :
    GoodDoc h m :=
  ⟨hg.1,
   ⟨fun f hf i hi => lt_of_lt_of_le (hg.2.1.1 f hf i hi) hnm,
    fun st hst => ⟨lt_of_lt_of_le ((hg.2.1.2 st hst).1) hnm,
      fun fid hfid => lt_of_lt_of_le ((hg.2.1.2 st hst).2 fid hfid) hnm⟩⟩,
   hg.2.2⟩

theorem goodState_of_mut (op : MutOp) (s : State) (hgood : GoodState s)
    (hdoc : GoodDoc (docOf (applyMut op s)) (applyMut op s).nextId)
    (hnext : s.nextId ≤ (applyMut op s).nextId) :
    GoodState (applyMut op s) := by
  refine ⟨hdoc, ?_, ?_⟩
  · intro h hh
    rw [applyMut_past] at hh
    rcases List.mem_append.mp hh with h1 | h1
    · exact (hgood.2.1 h (List.mem_of_mem_drop h1)).mono hnext
    · rw [List.mem_singleton.mp h1]
      exact hgood.1.mono hnext
  · intro h hh
    rw [applyMut_future] at hh
    exact absurd hh (List.not_mem_nil h)

/-- Transfer of document well-formedness along a change that keeps the
steps and preserves which genuine field ids are present. -/
theorem goodDoc_of_fields_id_mem (h h' : HistoryState) (n n' : Nat)
    (hsteps : h'.steps = h.steps)
    (hids : ∀ x : Nat, some x ∈ h'.fields.map StoredField.id ↔
      some x ∈ h.fields.map StoredField.id)
    (hn : n ≤ n')
    (hg : GoodDoc h n) : GoodDoc h' n' := by
  refine ⟨⟨?_, ?_⟩, ⟨?_, ?_⟩, ?_⟩
  · intro st hst fid hfid
    rw [hsteps] at hst
    exact (hids fid).mpr (hg.1.1 st hst fid hfid)
  · rw [hsteps]
    exact hg.1.2
  · intro f hf i hi
    have hfid : f.id = some i := hi
    have hmem : some i ∈ h.fields.map StoredField.id :=
      (hids i).mp (hfid ▸ List.mem_map_of_mem _ hf)
    obtain ⟨f0, hf0, hfeq⟩ := List.mem_map.mp hmem
    exact lt_of_lt_of_le (hg.2.1.1 f0 hf0 i hfeq) hn
  · rw [hsteps]
    intro st hst
    exact ⟨lt_of_lt_of_le ((hg.2.1.2 st hst).1) hn,
      fun fid hfid => lt_of_lt_of_le ((hg.2.1.2 st hst).2 fid hfid) hn⟩
  · rw [hsteps]
    exact hg.2.2

theorem goodDoc_setFormName (name : String) (s : State)
    (hg : GoodDoc (docOf s) s.nextId) :
    GoodDoc (docOf (setFormName name s)) (setFormName name s).nextId ∧
      s.nextId ≤ (setFormName name s).nextId :=
  ⟨hg, Nat.le_refl _⟩

theorem goodDoc_updateField (id : Nat) (u : FieldUpdate) (s : State)
    (hu : u.id = none) (hg : GoodDoc (docOf s) s.nextId) :
    GoodDoc (docOf (updateField id u s)) (updateField id u s).nextId ∧
      s.nextId ≤ (updateField id u s).nextId := by
  refine ⟨goodDoc_of_fields_id_mem (docOf s) _ s.nextId _ rfl ?_ (Nat.le_refl _) hg,
    Nat.le_refl _⟩
  intro x
  rw [show (docOf (updateField id u s)).fields =
    s.fields.map (fun f =>
      match f with
      | .field g => if g.id = id then StoredField.field (mergeField g u) else .field g
      | .junk o => .junk o) from rfl,
    updateField_map_id s.fields id u hu]
  exact Iff.rfl

theorem goodDoc_reorderFields (i j : Nat) (s : State)
    (hg : GoodDoc (docOf s) s.nextId) :
    GoodDoc (docOf (reorderFields i j s)) (reorderFields i j s).nextId ∧
      s.nextId ≤ (reorderFields i j s).nextId := by
  refine ⟨goodDoc_of_fields_id_mem (docOf s) _ s.nextId _ rfl ?_ (Nat.le_refl _) hg,
    Nat.le_refl _⟩
  intro x
  by_cases hi : i < s.fields.length
  · exact ((reorderFields_fields_perm s i j).1 hi).mem_iff
  · have hp := (reorderFields_fields_perm s i j).2 (Nat.le_of_not_lt hi)
    constructor
    · intro hx
      rcases List.mem_cons.mp (hp.mem_iff.mp hx) with h1 | h1
      · exact absurd h1 (by simp)
      · exact h1
    · intro hx
      exact hp.mem_iff.mpr (List.mem_cons_of_mem _ hx)

theorem goodDoc_updateStepName (stepId : Nat) (newName : String) (s : State)
    (hg : GoodDoc (docOf s) s.nextId) :
    GoodDoc (docOf (updateStepName stepId newName s)) (updateStepName stepId newName s).nextId ∧
      s.nextId ≤ (updateStepName stepId newName s).nextId := by
  have hfid : ∀ st : FormStep,
      ((if st.id = stepId then { st with name := newName } else st) : FormStep).fieldIds =
        st.fieldIds := by
    intro st
    split <;> rfl
  have hid : ∀ st : FormStep,
      ((if st.id = stepId then { st with name := newName } else st) : FormStep).id = st.id := by
    intro st
    split <;> rfl
  have hsteps : (docOf (updateStepName stepId newName s)).steps =
      s.steps.map (fun st => if st.id = stepId then { st with name := newName } else st) := rfl
  refine ⟨⟨⟨?_, ?_⟩, ⟨hg.2.1.1, ?_⟩, ?_⟩, Nat.le_refl _⟩
  · intro st hst fid hfid2
    rw [hsteps] at hst
    obtain ⟨st0, hst0, hrfl⟩ := List.mem_map.mp hst
    subst hrfl
    rw [hfid st0] at hfid2
    exact hg.1.1 st0 hst0 fid hfid2
  · rw [hsteps]
    refine List.Pairwise.map _ ?_ hg.1.2
    intro a b hab fid hfa
    rw [hfid a] at hfa
    rw [hfid b]
    exact hab fid hfa
  · rw [hsteps]
    intro st hst
    obtain ⟨st0, hst0, hrfl⟩ := List.mem_map.mp hst
    subst hrfl
    rw [hid st0, hfid st0]
    exact hg.2.1.2 st0 hst0
  · rw [hsteps, List.map_map]
    have : (FormStep.id ∘ fun st =>
        if st.id = stepId then { st with name := newName } else st) = FormStep.id := by
      funext st
      exact hid st
    rw [this]
    exact hg.2.2

theorem goodDoc_addStep (s : State) (hg : GoodDoc (docOf s) s.nextId) :
    GoodDoc (docOf (addStep s)) (addStep s).nextId ∧ s.nextId ≤ (addStep s).nextId := by
  have hsteps : (docOf (addStep s)).steps =
      s.steps ++ [(⟨s.nextId, "Step " ++ toString (s.steps.length + 1), []⟩ : FormStep)] := rfl
  refine ⟨⟨⟨?_, ?_⟩, ⟨?_, ?_⟩, ?_⟩, Nat.le_succ _⟩
  · intro st hst fid hfid
    rw [hsteps] at hst
    rcases List.mem_append.mp hst with h | h
    · exact hg.1.1 st h fid hfid
    · rw [List.mem_singleton.mp h] at hfid
      exact absurd hfid (List.not_mem_nil fid)
  · rw [hsteps]
    refine List.pairwise_append.mpr ⟨hg.1.2, List.pairwise_singleton _ _, ?_⟩
    intro a _ b hb fid _
    rw [List.mem_singleton.mp hb]
    exact List.not_mem_nil fid
  · intro f hf i hi
    exact Nat.lt_succ_of_lt (hg.2.1.1 f hf i hi)
  · intro st hst
    rw [hsteps] at hst
    rcases List.mem_append.mp hst with h | h
    · exact ⟨Nat.lt_succ_of_lt ((hg.2.1.2 st h).1),
        fun fid hfid => Nat.lt_succ_of_lt ((hg.2.1.2 st h).2 fid hfid)⟩
    · rw [List.mem_singleton.mp h]
      exact ⟨Nat.lt_succ_self _, fun fid hfid => absurd hfid (List.not_mem_nil fid)⟩
  · rw [hsteps, List.map_append, List.nodup_append]
    refine ⟨hg.2.2, List.nodup_singleton _, ?_⟩
    intro x hx
    obtain ⟨st, hst, hrfl⟩ := List.mem_map.mp hx
    intro hcontra
    rw [List.map_singleton, List.mem_singleton] at hcontra
    have hb := (hg.2.1.2 st hst).1
    rw [hrfl, hcontra] at hb
    exact lt_irrefl _ hb

theorem goodDoc_clearForm (s : State) :
    GoodDoc (docOf (clearForm s)) (clearForm s).nextId ∧
      s.nextId ≤ (clearForm s).nextId := by
  refine ⟨⟨⟨?_, ?_⟩, ⟨?_, ?_⟩, ?_⟩, Nat.le_refl _⟩
  · intro st hst
    exact absurd hst (List.not_mem_nil st)
  · exact List.Pairwise.nil
  · intro f hf
    exact absurd hf (List.not_mem_nil f)
  · intro st hst
    exact absurd hst (List.not_mem_nil st)
  · exact List.nodup_nil

theorem mem_filter_ne {l : List Nat} {x id : Nat} :
    x ∈ l.filter (fun fid => fid ≠ id) ↔ x ∈ l ∧ x ≠ id := by
  simp [List.mem_filter]

theorem mem_filter_ne_optnat {l : List (Option Nat)} {x : Option Nat} {id : Nat} :
    x ∈ l.filter (fun y => y ≠ some id) ↔ x ∈ l ∧ x ≠ some id := by
  simp [List.mem_filter]

theorem goodDoc_removeField (id : Nat) (s : State) (hg : GoodDoc (docOf s) s.nextId) :
    GoodDoc (docOf (removeField id s)) (removeField id s).nextId ∧
      s.nextId ≤ (removeField id s).nextId := by
  have hfields : (docOf (removeField id s)).fields =
      s.fields.filter (fun f => f.id ≠ some id) := rfl
  have hsteps : (docOf (removeField id s)).steps =
      (s.steps.map (fun st =>
        { st with fieldIds := st.fieldIds.filter (fun fid => fid ≠ id) })).filter
        (fun st => st.fieldIds.length > 0) := rfl
  refine ⟨⟨⟨?_, ?_⟩, ⟨?_, ?_⟩, ?_⟩, Nat.le_refl _⟩
  · intro st hst fid hfid
    rw [hsteps] at hst
    have hst2 := List.mem_of_mem_filter hst
    obtain ⟨st0, hst0, hrfl⟩ := List.mem_map.mp hst2
    subst hrfl
    obtain ⟨hmem, hne⟩ := mem_filter_ne.mp hfid
    rw [hfields, map_id_filter]
    exact mem_filter_ne_optnat.mpr ⟨hg.1.1 st0 hst0 fid hmem,
      fun hc => hne (Option.some.inj hc)⟩
  · rw [hsteps]
    refine List.Pairwise.sublist (List.filter_sublist _) ?_
    refine List.Pairwise.map _ ?_ hg.1.2
    intro a b hab fid hfa
    have := hab fid (List.mem_of_mem_filter hfa)
    intro hcontra
    exact this (List.mem_of_mem_filter hcontra)
  · intro f hf i hi
    rw [hfields] at hf
    exact hg.2.1.1 f (List.mem_of_mem_filter hf) i hi
  · intro st hst
    rw [hsteps] at hst
    obtain ⟨st0, hst0, hrfl⟩ := List.mem_map.mp (List.mem_of_mem_filter hst)
    subst hrfl
    exact ⟨(hg.2.1.2 st0 hst0).1,
      fun fid hfid => (hg.2.1.2 st0 hst0).2 fid (List.mem_of_mem_filter hfid)⟩
  · rw [hsteps]
    refine List.Nodup.sublist (List.Sublist.map _ (List.filter_sublist _)) ?_
    rw [List.map_map]
    have heq : (FormStep.id ∘ fun st =>
        { st with fieldIds := st.fieldIds.filter (fun fid => fid ≠ id) }) = FormStep.id := by
      funext st
      rfl
    rw [heq]
    exact hg.2.2

theorem goodDoc_moveFieldToStep (fieldId targetStepId : Nat) (s : State)
    (hok : some fieldId ∈ s.fields.map StoredField.id)
    (hg : GoodDoc (docOf s) s.nextId) :
    GoodDoc (docOf (moveFieldToStep fieldId targetStepId s))
        (moveFieldToStep fieldId targetStepId s).nextId ∧
      s.nextId ≤ (moveFieldToStep fieldId targetStepId s).nextId := by
  have hsteps : (docOf (moveFieldToStep fieldId targetStepId s)).steps =
      s.steps.map (fun st =>
        if st.id = targetStepId then
          { st with fieldIds := st.fieldIds.filter (fun fid => fid ≠ fieldId) ++ [fieldId] }
        else
          { st with fieldIds := st.fieldIds.filter (fun fid => fid ≠ fieldId) }) := by
    show (moveFieldToStep fieldId targetStepId s).steps = _
    unfold moveFieldToStep
    simp only [addToHistory_steps]
    apply List.map_congr_left
    intro st _
    by_cases hid : st.id = targetStepId <;> simp [hid, contains_filter_ne]
  have hpairNe : s.steps.Pairwise (fun a b => a.id ≠ b.id) := by
    have := hg.2.2
    rw [List.Nodup, List.pairwise_map] at this
    exact this
  refine ⟨⟨⟨?_, ?_⟩, ⟨hg.2.1.1, ?_⟩, ?_⟩, Nat.le_refl _⟩
  · intro st hst fid hfid
    rw [hsteps] at hst
    obtain ⟨st0, hst0, hrfl⟩ := List.mem_map.mp hst
    subst hrfl
    by_cases hid : st0.id = targetStepId
    · rw [if_pos hid] at hfid
      rcases List.mem_append.mp hfid with h1 | h1
      · exact hg.1.1 st0 hst0 fid (mem_filter_ne.mp h1).1
      · rw [List.mem_singleton.mp h1]
        exact hok
    · rw [if_neg hid] at hfid
      exact hg.1.1 st0 hst0 fid (mem_filter_ne.mp hfid).1
  · rw [hsteps]
    refine List.Pairwise.map _ ?_ (hg.1.2.and hpairNe)
    rintro a b ⟨hab, hne⟩ fid hfa hfb
    by_cases hida : a.id = targetStepId
    · rw [if_pos hida] at hfa
      rw [if_neg (fun hidb => hne (hida.trans hidb.symm))] at hfb
      obtain ⟨hfb1, hfb2⟩ := mem_filter_ne.mp hfb
      rcases List.mem_append.mp hfa with h1 | h1
      · exact hab fid (mem_filter_ne.mp h1).1 hfb1
      · exact hfb2 (List.mem_singleton.mp h1)
    · rw [if_neg hida] at hfa
      obtain ⟨hfa1, hfa2⟩ := mem_filter_ne.mp hfa
      by_cases hidb : b.id = targetStepId
      · rw [if_pos hidb] at hfb
        rcases List.mem_append.mp hfb with h1 | h1
        · exact hab fid hfa1 (mem_filter_ne.mp h1).1
        · exact hfa2 (List.mem_singleton.mp h1)
      · rw [if_neg hidb] at hfb
        exact hab fid hfa1 (mem_filter_ne.mp hfb).1
  · intro st hst
    rw [hsteps] at hst
    obtain ⟨st0, hst0, hrfl⟩ := List.mem_map.mp hst
    subst hrfl
    have hbase := hg.2.1.2 st0 hst0
    have hfieldBound : fieldId < s.nextId := by
      obtain ⟨f, hf, hfeq⟩ := List.mem_map.mp hok
      exact hg.2.1.1 f hf fieldId hfeq
    by_cases hid : st0.id = targetStepId
    · rw [if_pos hid]
      refine ⟨hbase.1, ?_⟩
      intro fid hfid
      rcases List.mem_append.mp hfid with h1 | h1
      · exact hbase.2 fid (mem_filter_ne.mp h1).1
      · rw [List.mem_singleton.mp h1]
        exact hfieldBound
    · rw [if_neg hid]
      exact ⟨hbase.1, fun fid hfid => hbase.2 fid (mem_filter_ne.mp hfid).1⟩
  · rw [hsteps, List.map_map]
    have heq : (FormStep.id ∘ fun st =>
        if st.id = targetStepId then
          { st with fieldIds := st.fieldIds.filter (fun fid => fid ≠ fieldId) ++ [fieldId] }
        else
          { st with fieldIds := st.fieldIds.filter (fun fid => fid ≠ fieldId) }) =
        FormStep.id := by
      funext st
      show FormStep.id (if _ then _ else _) = st.id
      split <;> rfl
    rw [heq]
    exact hg.2.2

theorem goodDoc_addField (t : FieldType) (s : State) (hg : GoodDoc (docOf s) s.nextId) :
    GoodDoc (docOf (addField t s)) (addField t s).nextId ∧
      s.nextId ≤ (addField t s).nextId := by
  obtain ⟨fields, steps, activeStepId, selectedFieldId, formName, theme, past, future, ni⟩ := s
  rcases steps with _ | ⟨st0, rest⟩
  · refine ⟨⟨⟨?_, ?_⟩, ⟨?_, ?_⟩, ?_⟩, Nat.le_add_right _ 2⟩
    · intro st hst fid hfid
      rw [List.mem_singleton.mp hst] at hfid
      rw [List.mem_singleton.mp hfid]
      show some (mkNewField t ni fields.length).id ∈
        (fields ++ [StoredField.field (mkNewField t ni fields.length)]).map StoredField.id
      rw [List.map_append]
      exact List.mem_append_right _ (List.mem_singleton.mpr rfl)
    · exact List.pairwise_singleton _ _
    · intro f hf i hi
      show i < ni + 2
      rcases List.mem_append.mp hf with h | h
      · exact Nat.lt_add_right 2 (hg.2.1.1 f h i hi)
      · rw [List.mem_singleton.mp h] at hi
        have h2 : (mkNewField t ni fields.length).id = i := Option.some.inj hi
        rw [mkNewField_id] at h2
        omega
    · intro st hst
      rw [List.mem_singleton.mp hst]
      refine ⟨(by omega : ni + 1 < ni + 2), ?_⟩
      intro fid hfid
      rw [List.mem_singleton.mp hfid, mkNewField_id]
      exact (by omega : ni < ni + 2)
    · exact List.nodup_singleton _
  · have hnfid : (mkNewField t ni fields.length).id = ni := mkNewField_id t ni fields.length
    have key : ∀ (p : FormStep → Bool) (h' : HistoryState),
        h'.fields = fields ++ [StoredField.field (mkNewField t ni fields.length)] →
        h'.steps = modifyFirst p
          (fun st => { st with fieldIds := st.fieldIds ++ [(mkNewField t ni fields.length).id] })
          (st0 :: rest) →
        GoodDoc h' (ni + 1) := by
      intro p h' hfe hse
      have hfresh : ∀ st ∈ st0 :: rest, ∀ x ∈ [(mkNewField t ni fields.length).id],
          x ∉ st.fieldIds := by
        intro st hst x hx hcontra
        rw [List.mem_singleton.mp hx, hnfid] at hcontra
        exact lt_irrefl ni ((hg.2.1.2 st hst).2 ni hcontra)
      refine ⟨⟨?_, ?_⟩, ⟨?_, ?_⟩, ?_⟩
      · intro st hst fid hfid
        rw [hse] at hst
        rw [hfe, List.map_append]
        rcases mem_modifyFirst _ _ _ _ hst with hmem | ⟨x, hx, hrfl⟩
        · exact List.mem_append_left _ (hg.1.1 st hmem fid hfid)
        · subst hrfl
          rcases List.mem_append.mp hfid with h1 | h1
          · exact List.mem_append_left _ (hg.1.1 x hx fid h1)
          · rw [List.mem_singleton.mp h1]
            exact List.mem_append_right _ (by rw [List.map_singleton]; exact List.mem_singleton.mpr rfl)
      · rw [hse]
        exact pairwise_modifyFirst_append p _ (st0 :: rest) hg.1.2 hfresh
      · intro f hf i hi
        rw [hfe] at hf
        rcases List.mem_append.mp hf with h | h
        · exact Nat.lt_succ_of_lt (hg.2.1.1 f h i hi)
        · rw [List.mem_singleton.mp h] at hi
          have h2 : (mkNewField t ni fields.length).id = i := Option.some.inj hi
          rw [mkNewField_id] at h2
          omega
      · intro st hst
        rw [hse] at hst
        rcases mem_modifyFirst _ _ _ _ hst with hmem | ⟨x, hx, hrfl⟩
        · exact ⟨Nat.lt_succ_of_lt ((hg.2.1.2 st hmem).1),
            fun fid hfid => Nat.lt_succ_of_lt ((hg.2.1.2 st hmem).2 fid hfid)⟩
        · subst hrfl
          refine ⟨Nat.lt_succ_of_lt ((hg.2.1.2 x hx).1), ?_⟩
          intro fid hfid
          rcases List.mem_append.mp hfid with h1 | h1
          · exact Nat.lt_succ_of_lt ((hg.2.1.2 x hx).2 fid h1)
          · rw [List.mem_singleton.mp h1, hnfid]
            exact Nat.lt_succ_self _
      · rw [hse, modifyFirst_map_id p
          (fun st => { st with fieldIds := st.fieldIds ++ [(mkNewField t ni fields.length).id] })
          (fun st => rfl)]
        exact hg.2.2
    rcases hany : (st0 :: rest).any (fun st => some st.id = activeStepId) with _ | _
    · refine ⟨key (fun _ => true) _ rfl ?_, Nat.le_succ _⟩
      show (if (st0 :: rest).any (fun st => some st.id = activeStepId) = true then _ else _) = _
      rw [hany]
      rfl
    · refine ⟨key (fun st => some st.id = activeStepId) _ rfl ?_, Nat.le_succ _⟩
      show (if (st0 :: rest).any (fun st => some st.id = activeStepId) = true then _ else _) = _
      rw [hany]
      rfl

@[simp]
theorem docOf_fields (s : State) : (docOf s).fields = s.fields := rfl

@[simp]
theorem docOf_steps (s : State) : (docOf s).steps = s.steps := rfl

theorem stepDisj_symmetric : Symmetric StepDisj := fun _ _ h => stepDisj_symm h

theorem goodDoc_removeStep (stepId : Nat) (s : State) (hg : GoodDoc (docOf s) s.nextId) :
    GoodDoc (docOf (removeStep stepId s)) (removeStep stepId s).nextId ∧
      s.nextId ≤ (removeStep stepId s).nextId := by
  obtain ⟨fields, steps, activeStepId, selectedFieldId, formName, theme, past, future, ni⟩ := s
  rcases hf : List.find? (fun st => st.id = stepId) steps with _ | rstep
  · have hres : removeStep stepId
        ⟨fields, steps, activeStepId, selectedFieldId, formName, theme, past, future, ni⟩ =
        addToHistory
          ⟨fields, steps, activeStepId, selectedFieldId, formName, theme, past, future, ni⟩ := by
      unfold removeStep
      simp only [addToHistory_steps, hf]
    rw [hres]
    exact ⟨hg, Nat.le_refl _⟩
  · have hrmem : rstep ∈ steps := List.mem_of_find?_eq_some hf
    have hrid : rstep.id = stepId := by simpa using List.find?_some hf
    have hfields2 : (removeStep stepId
        ⟨fields, steps, activeStepId, selectedFieldId, formName, theme, past, future,
          ni⟩).fields = fields := by
      unfold removeStep
      simp only [addToHistory_steps, addToHistory_fields, hf]
      rcases hq : List.filter (fun st => decide (st.id ≠ stepId)) steps with _ | ⟨first, rest⟩ <;>
        simp only [hq]
    have hnext2 : (removeStep stepId
        ⟨fields, steps, activeStepId, selectedFieldId, formName, theme, past, future,
          ni⟩).nextId = ni := by
      unfold removeStep
      simp only [addToHistory_steps, addToHistory_nextId, hf]
      rcases hq : List.filter (fun st => decide (st.id ≠ stepId)) steps with _ | ⟨first, rest⟩ <;>
        simp only [hq]
    rcases hfil : List.filter (fun st => decide (st.id ≠ stepId)) steps with _ | ⟨first, rest⟩
    · have hsteps2 : (removeStep stepId
          ⟨fields, steps, activeStepId, selectedFieldId, formName, theme, past, future,
            ni⟩).steps = [] := by
        unfold removeStep
        simp only [addToHistory_steps, hf, hfil]
      refine ⟨⟨⟨?_, ?_⟩, ⟨?_, ?_⟩, ?_⟩, ?_⟩
      · intro st hst
        rw [docOf_steps, hsteps2] at hst
        exact absurd hst (List.not_mem_nil st)
      · rw [docOf_steps, hsteps2]
        exact List.Pairwise.nil
      · intro f hfm
        rw [docOf_fields, hfields2] at hfm
        rw [hnext2]
        exact hg.2.1.1 f hfm
      · intro st hst
        rw [docOf_steps, hsteps2] at hst
        exact absurd hst (List.not_mem_nil st)
      · rw [docOf_steps, hsteps2]
        exact List.nodup_nil
      · rw [hnext2]
    · have hsubmem : ∀ st ∈ first :: rest, st ∈ steps := by
        intro st hst
        exact List.mem_of_mem_filter (hfil ▸ hst)
      have hsubne : ∀ st ∈ first :: rest, st.id ≠ stepId := by
        intro st hst
        have := List.of_mem_filter (hfil ▸ hst)
        simpa using this
      have hfs : List.Sublist (List.filter (fun st => decide (st.id ≠ stepId)) steps) steps :=
        List.filter_sublist steps
      have hpairsub : (first :: rest).Pairwise StepDisj := by
        have := List.Pairwise.sublist hfs hg.1.2
        rw [hfil] at this
        exact this
      have hfresh : ∀ st ∈ first :: rest, ∀ x ∈ rstep.fieldIds, x ∉ st.fieldIds := by
        intro st hst x hx
        have hne : rstep ≠ st := by
          intro hcontra
          exact hsubne st hst (hcontra ▸ hrid)
        exact List.Pairwise.forall stepDisj_symmetric hg.1.2 hrmem (hsubmem st hst) hne x hx
      have hndsub : ((first :: rest).map FormStep.id).Nodup := by
        have := List.Nodup.sublist (List.Sublist.map FormStep.id hfs) hg.2.2
        rw [hfil] at this
        exact this
      have hsteps2 : (removeStep stepId
          ⟨fields, steps, activeStepId, selectedFieldId, formName, theme, past, future,
            ni⟩).steps =
          if rstep.fieldIds.length > 0 then
            modifyFirst (fun st => st.id = first.id)
              (fun st => { st with fieldIds := st.fieldIds ++ rstep.fieldIds })
              (first :: rest)
          else first :: rest := by
        unfold removeStep
        simp only [addToHistory_steps, hf, hfil]
      by_cases hlen : rstep.fieldIds.length > 0
      · rw [if_pos hlen] at hsteps2
        refine ⟨⟨⟨?_, ?_⟩, ⟨?_, ?_⟩, ?_⟩, ?_⟩
        · intro st hst fid hfid
          rw [docOf_steps, hsteps2] at hst
          rw [docOf_fields, hfields2]
          rcases mem_modifyFirst (fun st => st.id = first.id)
            (fun st => { st with fieldIds := st.fieldIds ++ rstep.fieldIds })
            (first :: rest) st hst with hmem | ⟨x, hx, hrfl⟩
          · exact hg.1.1 st (hsubmem st hmem) fid hfid
          · subst hrfl
            rcases List.mem_append.mp hfid with h1 | h1
            · exact hg.1.1 x (hsubmem x hx) fid h1
            · exact hg.1.1 rstep hrmem fid h1
        · rw [docOf_steps, hsteps2]
          exact pairwise_modifyFirst_append _ _ (first :: rest) hpairsub hfresh
        · intro f hfm
          rw [docOf_fields, hfields2] at hfm
          rw [hnext2]
          exact hg.2.1.1 f hfm
        · intro st hst
          rw [docOf_steps, hsteps2] at hst
          rw [hnext2]
          rcases mem_modifyFirst (fun st => st.id = first.id)
            (fun st => { st with fieldIds := st.fieldIds ++ rstep.fieldIds })
            (first :: rest) st hst with hmem | ⟨x, hx, hrfl⟩
          · exact hg.2.1.2 st (hsubmem st hmem)
          · subst hrfl
            refine ⟨(hg.2.1.2 x (hsubmem x hx)).1, ?_⟩
            intro fid hfid
            rcases List.mem_append.mp hfid with h1 | h1
            · exact (hg.2.1.2 x (hsubmem x hx)).2 fid h1
            · exact (hg.2.1.2 rstep hrmem).2 fid h1
        · rw [docOf_steps, hsteps2, modifyFirst_map_id (fun st => st.id = first.id)
            (fun st => { st with fieldIds := st.fieldIds ++ rstep.fieldIds })
            (fun st => rfl) (first :: rest)]
          exact hndsub
        · rw [hnext2]
      · rw [if_neg hlen] at hsteps2
        refine ⟨⟨⟨?_, ?_⟩, ⟨?_, ?_⟩, ?_⟩, ?_⟩
        · intro st hst fid hfid
          rw [docOf_steps, hsteps2] at hst
          rw [docOf_fields, hfields2]
          exact hg.1.1 st (hsubmem st hst) fid hfid
        · rw [docOf_steps, hsteps2]
          exact hpairsub
        · intro f hfm
          rw [docOf_fields, hfields2] at hfm
          rw [hnext2]
          exact hg.2.1.1 f hfm
        · intro st hst
          rw [docOf_steps, hsteps2] at hst
          rw [hnext2]
          exact hg.2.1.2 st (hsubmem st hst)
        · rw [docOf_steps, hsteps2]
          exact hndsub
        · rw [hnext2]

theorem mem_of_getLast?_eq_some {l : List HistoryState} {a : HistoryState}
    (h : l.getLast? = some a) : a ∈ l := by
  obtain ⟨hne, heq⟩ := List.mem_getLast?_eq_getLast (Option.mem_def.mpr h)
  rw [heq]
  exact List.getLast_mem hne

theorem goodState_preserved (op : Op) (s : State) (hgood : GoodState s)
    (hok : OkOp s op = true) : GoodState (applyOp op s) := by
  cases op with
  | mutOp mop =>
    cases mop with
    | addField t =>
      exact goodState_of_mut _ s hgood (goodDoc_addField t s hgood.1).1
        (goodDoc_addField t s hgood.1).2
    | updateField id u =>
      have hu : u.id = none := Option.isNone_iff_eq_none.mp hok
      exact goodState_of_mut _ s hgood (goodDoc_updateField id u s hu hgood.1).1
        (goodDoc_updateField id u s hu hgood.1).2
    | removeField id =>
      exact goodState_of_mut _ s hgood (goodDoc_removeField id s hgood.1).1
        (goodDoc_removeField id s hgood.1).2
    | reorderFields i j =>
      exact goodState_of_mut _ s hgood (goodDoc_reorderFields i j s hgood.1).1
        (goodDoc_reorderFields i j s hgood.1).2
    | setFormName name =>
      exact goodState_of_mut _ s hgood (goodDoc_setFormName name s hgood.1).1
        (goodDoc_setFormName name s hgood.1).2
    | addStep =>
      exact goodState_of_mut _ s hgood (goodDoc_addStep s hgood.1).1
        (goodDoc_addStep s hgood.1).2
    | updateStepName stepId newName =>
      exact goodState_of_mut _ s hgood (goodDoc_updateStepName stepId newName s hgood.1).1
        (goodDoc_updateStepName stepId newName s hgood.1).2
    | removeStep stepId =>
      exact goodState_of_mut _ s hgood (goodDoc_removeStep stepId s hgood.1).1
        (goodDoc_removeStep stepId s hgood.1).2
    | moveFieldToStep fid tid =>
      have hmem : some fid ∈ s.fields.map StoredField.id := List.mem_of_elem_eq_true hok
      exact goodState_of_mut _ s hgood (goodDoc_moveFieldToStep fid tid s hmem hgood.1).1
        (goodDoc_moveFieldToStep fid tid s hmem hgood.1).2
    | clearForm =>
      exact goodState_of_mut _ s hgood (goodDoc_clearForm s).1 (goodDoc_clearForm s).2
  | setSelectedField id => exact hgood
  | setActiveStep stepId => exact hgood
  | toggleTheme => exact hgood
  | undo =>
    show GoodState (undo s)
    rcases hu : s.past.getLast? with _ | prev
    · rw [undo_of_empty_past s (by simpa using hu)]
      exact hgood
    · have hprevmem : prev ∈ s.past := mem_of_getLast?_eq_some hu
      unfold undo
      rw [hu]
      refine ⟨hgood.2.1 prev hprevmem, ?_, ?_⟩
      · intro h hh
        exact hgood.2.1 h ((List.dropLast_sublist s.past).subset hh)
      · intro h hh
        rcases List.mem_cons.mp hh with h1 | h1
        · rw [h1]
          exact hgood.1
        · exact hgood.2.2 h h1
  | redo =>
    show GoodState (redo s)
    rcases hfu : s.future with _ | ⟨nxt, rest⟩
    · have hid : redo s = s := by
        unfold redo
        rw [hfu]
      rw [hid]
      exact hgood
    · unfold redo
      rw [hfu]
      refine ⟨hgood.2.2 nxt (hfu ▸ List.mem_cons_self _ _), ?_, ?_⟩
      · intro h hh
        rcases List.mem_append.mp hh with h1 | h1
        · exact hgood.2.1 h h1
        · rw [List.mem_singleton.mp h1]
          exact hgood.1
      · intro h hh
        exact hgood.2.2 h (hfu ▸ List.mem_cons_of_mem _ hh)

theorem goodState_initial : GoodState initialFormBuilderState := by decide

theorem goodState_applyOps :
    ∀ (ops : List Op) (s : State), GoodState s → OkSeq s ops = true →
      GoodState (applyOps ops s)
  | [], s, h, _ => h
  | op :: rest, s, h, hok => by
    have hsplit := Bool.and_eq_true_iff.mp (by simpa [OkSeq] using hok)
    exact goodState_applyOps rest (applyOp op s)
      (goodState_preserved op s h hsplit.1) hsplit.2

/-- C2 counterexample: the state reached from the initial empty document
by `addField('text')` (creating field 0 inside new step 1) followed by
`moveFieldToStep(99, 1)` has `99` in step 1's `fieldIds` although no field
with id 99 exists: `moveFieldToStep` appends its argument to the target
step without checking that the field exists. -/
theorem reachable_state_violates_integrity :
    ¬ RefIntegrity (docOf (applyOps
      [.mutOp (.addField .text), .mutOp (.moveFieldToStep 99 1)]
      initialFormBuilderState)) := by
  decide

/-- C2 amended: for every state reachable from the initial empty document
by a sequence of store operations in which every `moveFieldToStep` call
names an existing field and no `updateField` call overwrites a field id,
every id in every step's `fieldIds` names an existing field and no field
id appears in more than one step's list. -/
theorem referential_integrity_reachable (ops : List Op)
    (hok : OkSeq initialFormBuilderState ops = true) :
    RefIntegrity (docOf (applyOps ops initialFormBuilderState)) :=
  (goodState_applyOps ops initialFormBuilderState goodState_initial hok).1.1

/-- Witness for C2 at a concrete input: add a field, add a step, and move
the existing field 0 into the new step 2. -/
theorem referential_integrity_reachable_witness :
    RefIntegrity (docOf (applyOps
      [.mutOp (.addField .text), .mutOp .addStep, .mutOp (.moveFieldToStep 0 2)]
      initialFormBuilderState)) :=
  referential_integrity_reachable
    [.mutOp (.addField .text), .mutOp .addStep, .mutOp (.moveFieldToStep 0 2)]
    (by decide)
